import Mathlib

/-!
Verification of the HTTP middleware collection (hjarta-di).

This file gives a shallow embedding of the middleware components and proves
the specification's claims about them:

* the gzip `Compress` middleware (`gzipResponseWriter`, `acceptsGzip`,
  `shouldSkipGzip`, `commit`, `close`) from `listener/middleware/compress.go`;
* the snowflake request-id generator (`snowflakeGenerator.generate`) from
  `listener/middleware/request_id.go`;
* the token-bucket rate limiter (`tokenBucket.tryAcquire`, `RateLimit`) from
  `listener/middleware/ratelimit.go`;
* the CORS middleware (`CORS`, `extractHostname`, origin validators) from
  `listener/middleware/cors.go`;
* the panic `Recovery` middleware (`recoveryWriter`, `Recovery`) from
  `listener/middleware/recovery.go`.

Go machine integers are modelled as `Nat`/`Int` with explicit `% 2 ^ 64`
where wraparound can occur; `float64` values in the token bucket are
modelled with exact rational arithmetic; byte slices are `List Nat`;
Go maps/headers are association lists.
-/

namespace Middleware

/-! ## HTTP header model

Go's `http.Header` is a map from (canonical) header names to value slices.
The middleware only uses `Get` (first value), `Set` (replace), `Del`
(remove) and `Add` (append), always with already-canonical keys, so an
association list with those operations is a faithful model. -/

/-- Response headers: an association list of (name, value) pairs. -/
abbrev Headers := List (String × String)

/-- `http.Header.Get`: the first value stored for the key, `""` if absent. -/
def hGet (hs : Headers) (k : String) : String :=
  match hs.find? (fun p => p.1 = k) with
  | some p => p.2
  | none => ""

/-- `http.Header.Set`: replace all values for the key with a single value. -/
def hSet (hs : Headers) (k v : String) : Headers :=
  hs.filter (fun p => ¬(p.1 = k)) ++ [(k, v)]

/-- `http.Header.Del`: remove all values for the key. -/
def hDel (hs : Headers) (k : String) : Headers :=
  hs.filter (fun p => ¬(p.1 = k))

/-- `http.Header.Add`: append a value for the key. -/
def hAdd (hs : Headers) (k v : String) : Headers :=
  hs ++ [(k, v)]

theorem find?_filterOut (hs : Headers) (k k' : String) (h : k ≠ k') :
    (hs.filter fun p => ¬(p.1 = k)).find? (fun p => p.1 = k')
      = hs.find? (fun p => p.1 = k') := by
  induction hs with
  | nil => rfl
  | cons p t ih =>
    by_cases hp : p.1 = k
    · have hk' : ¬(p.1 = k') := fun hc => h (by rw [← hp, hc])
      have h1 : (p :: t).filter (fun q => ¬(q.1 = k)) = t.filter (fun q => ¬(q.1 = k)) := by
        simp [List.filter_cons, hp]
      rw [h1, ih, List.find?_cons_of_neg _ (by simpa using hk')]
    · have h1 : (p :: t).filter (fun q => ¬(q.1 = k)) = p :: t.filter (fun q => ¬(q.1 = k)) := by
        simp [List.filter_cons, hp]
      rw [h1]
      by_cases hq : p.1 = k'
      · rw [List.find?_cons_of_pos _ (by simpa using hq),
          List.find?_cons_of_pos _ (by simpa using hq)]
      · rw [List.find?_cons_of_neg _ (by simpa using hq),
          List.find?_cons_of_neg _ (by simpa using hq), ih]

theorem hGet_hSet_self (hs : Headers) (k v : String) : hGet (hSet hs k v) k = v := by
  unfold hGet hSet
  rw [List.find?_append]
  have h1 : (hs.filter fun p => ¬(p.1 = k)).find? (fun p => p.1 = k) = none := by
    rw [List.find?_eq_none]
    intro x hx
    simp only [List.mem_filter, decide_not, Bool.not_eq_eq_eq_not, Bool.not_true,
      decide_eq_false_iff_not] at hx
    simpa using hx.2
  have h2 : ([((k : String), v)].find? fun p => p.1 = k) = some (k, v) := by
    simp [List.find?_cons]
  rw [h1, h2]
  rfl

theorem hGet_hSet_ne (hs : Headers) (k k' v : String) (h : k ≠ k') :
    hGet (hSet hs k v) k' = hGet hs k' := by
  unfold hGet hSet
  rw [List.find?_append, find?_filterOut hs k k' h]
  have h2 : ([((k : String), v)].find? fun p => p.1 = k') = none := by
    simp [List.find?_cons, h]
  rw [h2]
  cases hs.find? (fun p => p.1 = k') <;> simp

theorem hGet_hDel_ne (hs : Headers) (k k' : String) (h : k ≠ k') :
    hGet (hDel hs k) k' = hGet hs k' := by
  unfold hGet hDel
  rw [find?_filterOut hs k k' h]

/-! ## Compress middleware (`compress.go`)

`gzipResponseWriter` buffers body bytes until it can decide whether to
compress, then commits headers and the buffer once.  The gzip encoder is
modelled by the list of bytes fed to it (`gzIn`): gzip-decoding the
encoder's output stream recovers exactly the bytes that were written to
it, so `gzIn` is the decoded view of the compressed stream.  The Go
stdlib's `http.DetectContentType` is external to the repository and is
modelled as an arbitrary sniffing function `detect`. -/

/-- `minCompressSize`: minimum response size in bytes before compression. -/
def minCompressSize : Nat := 256

/-- `compressedContentTypes`: content types that are already compressed. -/
def compressedContentTypes : List String :=
  ["application/gzip", "application/zip", "application/x-gzip",
   "application/x-compressed", "application/x-bzip2", "application/x-xz",
   "application/zstd", "image/png", "image/jpeg", "image/gif", "image/webp",
   "audio/mpeg", "audio/ogg", "video/mp4", "video/webm",
   "application/octet-stream", "application/x-tar",
   "application/x-rar-compressed", "application/x-7z-compressed",
   "application/vnd.rar", "application/java-archive", "application/wasm",
   "font/woff", "font/woff2", "application/font-woff",
   "application/x-font-woff", "application/pdf",
   "application/x-shockwave-flash"]

/-- `strings.Cut(s, ";")`: the part of `s` before the first `";"`. -/
def cutBeforeSemicolon (s : String) : String :=
  ((s.splitOn ";").headD s)

/-- State of a `gzipResponseWriter` together with the underlying response
writer it wraps.  `rawOut` holds body bytes written directly to the
underlying writer; `gzIn` holds bytes fed to the gzip encoder;
`sentStatus`/`sentHeaders` record the status line and header snapshot
committed on the underlying writer by its `WriteHeader`. -/
structure GzipRW where
  headers : Headers := []
  statusCode : Nat := 0
  buf : List Nat := []
  decided : Bool := false
  skipGzip : Bool := false
  hijacked : Bool := false
  commitErr : Bool := false
  rawOut : List Nat := []
  gzIn : List Nat := []
  sentStatus : Option Nat := none
  sentHeaders : Headers := []

/-- `gzipResponseWriter.shouldSkipGzip`, with the stdlib content sniffer
passed in as `detect`. -/
def shouldSkipGzip (detect : List Nat → String) (w : GzipRW) : Bool :=
  let ct0 := hGet w.headers "Content-Type"
  let ct := if ct0 = "" then detect w.buf else ct0
  let baseType := (cutBeforeSemicolon ct).trim
  if compressedContentTypes.contains baseType then true
  else if w.buf.length < minCompressSize then true
  else if ¬(hGet w.headers "Content-Encoding" = "") then true
  else if w.statusCode = 204 ∨ w.statusCode = 304 then true
  else if w.statusCode = 206 then true
  else if w.statusCode < 200 then true
  else false

/-- `gzipResponseWriter.commit`: decide once, adjust headers on the
compress path, send the status line, and flush the buffer to the chosen
sink. -/
def gzwCommit (detect : List Nat → String) (w : GzipRW) : GzipRW :=
  if w.decided then w
  else
    let w := { w with decided := true }
    let skip := shouldSkipGzip detect w
    let w := { w with skipGzip := skip }
    let w := if w.statusCode = 0 then { w with statusCode := 200 } else w
    let w :=
      if skip then w
      else
        let hs := if hGet w.headers "Content-Type" = "" then
            hSet w.headers "Content-Type" (detect w.buf)
          else w.headers
        let hs := hSet hs "Content-Encoding" "gzip"
        let hs := hDel hs "Content-Length"
        { w with headers := hs }
    let w := { w with sentStatus := some w.statusCode, sentHeaders := w.headers }
    if w.buf.isEmpty then w
    else if skip then { w with rawOut := w.rawOut ++ w.buf, buf := [] }
    else { w with gzIn := w.gzIn ++ w.buf, buf := [] }

/-- `gzipResponseWriter.WriteHeader`: the first call wins. -/
def gzwWriteHeader (w : GzipRW) (code : Nat) : GzipRW :=
  if w.statusCode = 0 then { w with statusCode := code } else w

/-- `gzipResponseWriter.Write`: buffer until the decision, then stream to
the chosen sink; commit when the buffer reaches `minCompressSize`. -/
def gzwWrite (detect : List Nat → String) (w : GzipRW) (b : List Nat) : GzipRW :=
  if w.commitErr then w
  else
    let w := if w.statusCode = 0 then { w with statusCode := 200 } else w
    if w.decided then
      if w.skipGzip then { w with rawOut := w.rawOut ++ b }
      else { w with gzIn := w.gzIn ++ b }
    else
      let w := { w with buf := w.buf ++ b }
      if minCompressSize ≤ w.buf.length then gzwCommit detect w else w

/-- `gzipResponseWriter.Flush`: commit, then flush the encoder and the
underlying writer (both flushes leave the decoded byte stream unchanged). -/
def gzwFlush (detect : List Nat → String) (w : GzipRW) : GzipRW :=
  gzwCommit detect w

/-- `gzipResponseWriter.close`: commit and close the gzip stream unless
the connection was hijacked. -/
def gzwClose (detect : List Nat → String) (w : GzipRW) : GzipRW :=
  if w.hijacked then w else gzwCommit detect w

/-- One interaction of the wrapped handler with its response writer. -/
inductive HAction where
  | write (b : List Nat)
  | writeHeader (code : Nat)
  | setHeader (k v : String)
  | flush
deriving DecidableEq

/-- Apply one handler action to the writer state. -/
def gzwStep (detect : List Nat → String) (w : GzipRW) : HAction → GzipRW
  | .write b => gzwWrite detect w b
  | .writeHeader code => gzwWriteHeader w code
  | .setHeader k v => { w with headers := hSet w.headers k v }
  | .flush => gzwFlush detect w

/-- Run a whole handler body: a sequence of writer interactions. -/
def gzwRun (detect : List Nat → String) (w : GzipRW) (acts : List HAction) : GzipRW :=
  acts.foldl (gzwStep detect) w

/-- All bytes the handler wrote, in order. -/
def handlerBytes (acts : List HAction) : List Nat :=
  (acts.map fun a => match a with | .write b => b | _ => []).flatten

/-- Invariant of the compressing writer: writes so far (`ws`) are exactly
the buffer before the decision, and exactly the chosen output stream
after it; the committed `Content-Encoding` header is `gzip` precisely on
the compress path (as long as the handler never set one itself). -/
structure GzInv (s : GzipRW) (ws : List Nat) : Prop where
  hij : s.hijacked = false
  cerr : s.commitErr = false
  undec : s.decided = false →
    s.rawOut = [] ∧ s.gzIn = [] ∧ s.skipGzip = false ∧ s.buf = ws ∧
      hGet s.headers "Content-Encoding" = ""
  dec_skip : s.decided = true → s.skipGzip = true →
    s.buf = [] ∧ s.gzIn = [] ∧ s.rawOut = ws ∧
      hGet s.sentHeaders "Content-Encoding" = ""
  dec_gz : s.decided = true → s.skipGzip = false →
    s.buf = [] ∧ s.rawOut = [] ∧ s.gzIn = ws ∧
      hGet s.sentHeaders "Content-Encoding" = "gzip"

theorem gzwCommit_inv (detect : List Nat → String) (s : GzipRW) (ws : List Nat)
    (h : GzInv s ws) : GzInv (gzwCommit detect s) ws := by
  have hce1 : ∀ hs : Headers,
      hGet (hDel (hSet hs "Content-Encoding" "gzip") "Content-Length")
        "Content-Encoding" = "gzip" := fun hs => by
    rw [hGet_hDel_ne _ _ _ (by decide), hGet_hSet_self]
  by_cases hd : s.decided = true
  · unfold gzwCommit
    rw [if_pos hd]
    exact h
  · have hd' : s.decided = false := by simpa using hd
    obtain ⟨hraw, hgz, hskip, hbuf, hce⟩ := h.undec hd'
    have hhij := h.hij
    have hcerr := h.cerr
    unfold gzwCommit
    rw [if_neg hd]
    dsimp only
    split_ifs <;> constructor <;> simp_all [List.isEmpty_iff]

theorem gzwWriteUndec (detect : List Nat → String) (t : GzipRW) (ws b : List Nat)
    (h : GzInv t ws) (hd : t.decided = false) :
    GzInv (if minCompressSize ≤ (t.buf ++ b).length
        then gzwCommit detect { t with buf := t.buf ++ b }
        else { t with buf := t.buf ++ b }) (ws ++ b) := by
  obtain ⟨hraw, hgz, hskip, hbuf, hce⟩ := h.undec hd
  have hhij := h.hij
  have hcerr := h.cerr
  have hpre : GzInv { t with buf := t.buf ++ b } (ws ++ b) := by
    constructor <;> simp_all
  split_ifs
  · exact gzwCommit_inv detect _ _ hpre
  · exact hpre

theorem gzwWrite_inv (detect : List Nat → String) (s : GzipRW) (ws b : List Nat)
    (h : GzInv s ws) : GzInv (gzwWrite detect s b) (ws ++ b) := by
  have hhij := h.hij
  have hcerr := h.cerr
  unfold gzwWrite
  rw [if_neg (by simp [hcerr])]
  dsimp only
  by_cases hsc : s.statusCode = 0
  case pos =>
    rw [if_pos hsc]
    have h2 : GzInv { s with statusCode := 200 } ws :=
      ⟨h.hij, h.cerr, h.undec, h.dec_skip, h.dec_gz⟩
    by_cases hd : s.decided = true
    · rw [if_pos hd]
      by_cases hsk : s.skipGzip = true
      · obtain ⟨hbuf, hgz, hraw, hce⟩ := h.dec_skip hd hsk
        rw [if_pos hsk]
        constructor <;> simp_all
      · have hsk' : s.skipGzip = false := by simpa using hsk
        obtain ⟨hbuf, hraw, hgz, hce⟩ := h.dec_gz hd hsk'
        rw [if_neg hsk]
        constructor <;> simp_all
    · rw [if_neg hd]
      exact gzwWriteUndec detect { s with statusCode := 200 } ws b h2
        (by simpa using hd)
  case neg =>
    rw [if_neg hsc]
    by_cases hd : s.decided = true
    · rw [if_pos hd]
      by_cases hsk : s.skipGzip = true
      · obtain ⟨hbuf, hgz, hraw, hce⟩ := h.dec_skip hd hsk
        rw [if_pos hsk]
        constructor <;> simp_all
      · have hsk' : s.skipGzip = false := by simpa using hsk
        obtain ⟨hbuf, hraw, hgz, hce⟩ := h.dec_gz hd hsk'
        rw [if_neg hsk]
        constructor <;> simp_all
    · rw [if_neg hd]
      exact gzwWriteUndec detect s ws b h (by simpa using hd)

theorem gzwStep_inv (detect : List Nat → String) (s : GzipRW) (ws : List Nat)
    (a : HAction) (h : GzInv s ws)
    (hk : ∀ k v, a = HAction.setHeader k v → k ≠ "Content-Encoding") :
    GzInv (gzwStep detect s a) (ws ++ handlerBytes [a]) := by
  cases a with
  | write b =>
    simpa [handlerBytes] using gzwWrite_inv detect s ws b h
  | writeHeader code =>
    have hb : handlerBytes [HAction.writeHeader code] = [] := by simp [handlerBytes]
    rw [hb, List.append_nil]
    show GzInv (gzwWriteHeader s code) ws
    unfold gzwWriteHeader
    split_ifs
    · exact ⟨h.hij, h.cerr, h.undec, h.dec_skip, h.dec_gz⟩
    · exact h
  | setHeader k v =>
    have hkv : k ≠ "Content-Encoding" := hk k v rfl
    have hb : handlerBytes [HAction.setHeader k v] = [] := by simp [handlerBytes]
    rw [hb, List.append_nil]
    show GzInv { s with headers := hSet s.headers k v } ws
    refine ⟨h.hij, h.cerr, ?_, h.dec_skip, h.dec_gz⟩
    intro hd
    obtain ⟨hraw, hgz, hskip, hbuf, hce⟩ := h.undec hd
    refine ⟨hraw, hgz, hskip, hbuf, ?_⟩
    show hGet (hSet s.headers k v) "Content-Encoding" = ""
    rw [hGet_hSet_ne _ _ _ _ hkv]
    exact hce
  | flush =>
    have hb : handlerBytes [HAction.flush] = [] := by simp [handlerBytes]
    rw [hb, List.append_nil]
    show GzInv (gzwFlush detect s) ws
    unfold gzwFlush
    exact gzwCommit_inv detect s ws h

theorem gzwRun_inv (detect : List Nat → String) (acts : List HAction) :
    ∀ (s : GzipRW) (ws : List Nat), GzInv s ws →
    (∀ k v, HAction.setHeader k v ∈ acts → k ≠ "Content-Encoding") →
    GzInv (gzwRun detect s acts) (ws ++ handlerBytes acts) := by
  induction acts with
  | nil => intro s ws h _; simpa [gzwRun, handlerBytes] using h
  | cons a rest ih =>
    intro s ws h hk
    have h1 := gzwStep_inv detect s ws a h
      (fun k v hak => hk k v (by rw [hak]; exact List.mem_cons_self _ _))
    have h2 := ih (gzwStep detect s a) (ws ++ handlerBytes [a]) h1
      (fun k v hm => hk k v (List.mem_cons_of_mem _ hm))
    have hjoin : ws ++ handlerBytes [a] ++ handlerBytes rest
        = ws ++ handlerBytes (a :: rest) := by
      simp [handlerBytes, List.append_assoc]
    rw [hjoin] at h2
    simpa [gzwRun] using h2

theorem gzwCommit_decided (detect : List Nat → String) (s : GzipRW) :
    (gzwCommit detect s).decided = true := by
  unfold gzwCommit
  by_cases h1 : s.decided = true
  · rw [if_pos h1]
    exact h1
  · rw [if_neg h1]
    dsimp only
    split_ifs <;> rfl

/-- C1: For every request accepted for compression and every sequence of
handler writer interactions (with no hijack and the handler not setting
`Content-Encoding` itself), the byte stream delivered to the underlying
writer — gzip-decoded when `Content-Encoding: gzip` was committed, taken
verbatim otherwise — equals exactly the concatenation of all bytes the
handler wrote, regardless of how many separate `Write` calls were made. -/
theorem compress_stream_roundtrip (detect : List Nat → String) (h0 : Headers)
    (acts : List HAction)
    (hce0 : hGet h0 "Content-Encoding" = "")
    (hce : ∀ k v, HAction.setHeader k v ∈ acts → k ≠ "Content-Encoding") :
    (fun s => (if hGet s.sentHeaders "Content-Encoding" = "gzip"
        then s.gzIn else s.rawOut))
      (gzwClose detect (gzwRun detect { headers := h0 } acts))
      = handlerBytes acts := by
  have hinit : GzInv { headers := h0 } [] := by
    constructor <;> simp_all
  have hrun := gzwRun_inv detect acts _ [] hinit hce
  rw [List.nil_append] at hrun
  have hfin := gzwCommit_inv detect _ _ hrun
  have hclose : gzwClose detect (gzwRun detect { headers := h0 } acts)
      = gzwCommit detect (gzwRun detect { headers := h0 } acts) := by
    unfold gzwClose
    rw [if_neg (by simp [hrun.hij])]
  rw [hclose]
  set t := gzwCommit detect (gzwRun detect { headers := h0 } acts) with ht
  have hdec : t.decided = true := by
    rw [ht]
    exact gzwCommit_decided detect _
  by_cases hsk : t.skipGzip = true
  · obtain ⟨_, _, hraw, hces⟩ := hfin.dec_skip hdec hsk
    simp [hces, hraw]
  · have hsk' : t.skipGzip = false := by simpa using hsk
    obtain ⟨_, _, hgz, hces⟩ := hfin.dec_gz hdec hsk'
    simp [hces, hgz]

/-- Witness for C1: a handler that sets a content type and writes 301
bytes in two `Write` calls; the decoded delivered stream is exactly the
301 written bytes. -/
theorem compress_stream_roundtrip_witness :
    (fun s => (if hGet s.sentHeaders "Content-Encoding" = "gzip"
        then s.gzIn else s.rawOut))
      (gzwClose (fun _ => "text/plain")
        (gzwRun (fun _ => "text/plain") { headers := [] }
          [HAction.setHeader "Content-Type" "text/plain",
           HAction.write (List.replicate 300 65), HAction.write [66]]))
      = handlerBytes
          [HAction.setHeader "Content-Type" "text/plain",
           HAction.write (List.replicate 300 65), HAction.write [66]] := by
  apply compress_stream_roundtrip
  · rfl
  · intro k v hm
    simp only [List.mem_cons, List.not_mem_nil, or_false] at hm
    rcases hm with h | h | h
    · cases h
      decide
    · cases h
    · cases h

/-! Go string primitives, modelled on `List Char` so that all
operations are structurally recursive (and hence evaluate inside the
kernel).  A Go string's runes correspond to the `Char` entries. -/

/-- `strings.Split` on a single-character separator class given by `p`. -/
def splitOnP (p : Char → Bool) : List Char → List (List Char)
  | [] => [[]]
  | x :: xs =>
    match splitOnP p xs with
    | [] => if p x then [[], []] else [[x]]
    | part :: parts => if p x then [] :: part :: parts else (x :: part) :: parts

/-- `strings.Split` on a single-character separator. -/
def splitOnChar (c : Char) (l : List Char) : List (List Char) :=
  splitOnP (fun x => x = c) l

/-- `strings.TrimSpace`. -/
def trimL (l : List Char) : List Char :=
  ((l.dropWhile Char.isWhitespace).reverse.dropWhile Char.isWhitespace).reverse

/-- `strings.ToLower` / the `strings.EqualFold` normal form. -/
def lowerL (l : List Char) : List Char :=
  l.map Char.toLower

/-- `strings.Cut` on a single-character separator: the parts before and
after the first occurrence (after = `[]` when absent). -/
def goCutL (sep : Char) (l : List Char) : List Char × List Char :=
  match splitOnChar sep l with
  | [] => (l, [])
  | [x] => (x, [])
  | x :: xs => (x, (xs.intersperse [sep]).flatten)

/-- Numeric value of a digit string. -/
def digitsVal (l : List Char) : Nat :=
  l.foldl (fun a c => a * 10 + (c.toNat - 48)) 0

/-- Model of `strconv.ParseFloat` restricted to decimal notation
(optional sign, digits with at most one dot, optional decimal
exponent), returning `some z` when the string parses, where `z` records
whether the exact decimal value is zero — which is all `acceptsGzip`
consumes of the parse result (`err == nil && qval == 0`). -/
def parseFloatZero (s : List Char) : Option Bool :=
  let body := match s with
    | '+' :: rest => some rest
    | '-' :: rest => some rest
    | [] => none
    | rest => some rest
  match body with
  | none => none
  | some rest =>
    match splitOnP (fun c => c = 'e' ∨ c = 'E') rest with
    | [m] => parseMantissaZero m
    | [m, e] =>
      match parseMantissaZero m, parseExponentOk e with
      | some z, true => some z
      | _, _ => none
    | _ => none
where
  /-- digits, or digits dot digits (not both empty); zero iff all
  mantissa digits are `0`. -/
  parseMantissaZero (m : List Char) : Option Bool :=
    match splitOnChar '.' m with
    | [ip] =>
      if ¬(ip = []) ∧ ip.all Char.isDigit then some (digitsVal ip = 0) else none
    | [ip, fp] =>
      if (¬(ip = []) ∨ ¬(fp = [])) ∧ ip.all Char.isDigit ∧ fp.all Char.isDigit then
        some (digitsVal ip = 0 ∧ digitsVal fp = 0)
      else none
    | _ => none
  /-- optional sign followed by a nonempty digit string. -/
  parseExponentOk (e : List Char) : Bool :=
    match e with
    | '+' :: rest => ¬(rest = []) ∧ rest.all Char.isDigit
    | '-' :: rest => ¬(rest = []) ∧ rest.all Char.isDigit
    | rest => ¬(rest = []) ∧ rest.all Char.isDigit

/-- The inner parameter loop of `acceptsGzip`: does any `;`-separated
parameter have key `q` (case-insensitively) whose value parses to zero? -/
def qZero (params : List Char) : Bool :=
  (splitOnChar ';' params).any (fun param0 =>
    let param := trimL param0
    let kv := goCutL '=' param
    (lowerL (trimL kv.1) = ['q']) ∧ parseFloatZero (trimL kv.2) = some true)

/-- The outer loop of `acceptsGzip` over the comma-separated parts of
the `Accept-Encoding` header: the first part naming `gzip`
(case-insensitively) decides; it accepts unless a `q` parameter parses
to zero. -/
def acceptsGzipParts : List (List Char) → Bool
  | [] => false
  | part0 :: rest =>
    let part := trimL part0
    let cut := goCutL ';' part
    let encoding := trimL cut.1
    let params := cut.2
    if ¬(lowerL encoding = ['g', 'z', 'i', 'p']) then acceptsGzipParts rest
    else if params = [] then true
    else if qZero params then false
    else true

/-- `acceptsGzip`: whether the `Accept-Encoding` header names gzip with
a nonzero quality value.  The `Compress` middleware passes the response
through uncompressed when this is false. -/
def acceptsGzip (header : String) : Bool :=
  acceptsGzipParts (splitOnChar ',' header.data)

theorem acceptsGzipParts_rejects (ps : List (List Char))
    (hall : ∀ part ∈ ps,
      (lowerL (trimL (goCutL ';' (trimL part)).1) = ['g', 'z', 'i', 'p']) →
        ¬((goCutL ';' (trimL part)).2 = []) ∧
          qZero ((goCutL ';' (trimL part)).2) = true) :
    acceptsGzipParts ps = false := by
  induction ps with
  | nil => rfl
  | cons p rest ih =>
    unfold acceptsGzipParts
    dsimp only
    by_cases h1 : lowerL (trimL (goCutL ';' (trimL p)).1) = ['g', 'z', 'i', 'p']
    · rw [if_neg (not_not_intro h1)]
      obtain ⟨hne, hq⟩ := hall p (List.mem_cons_self _ _) h1
      rw [if_neg hne, if_pos hq]
    · rw [if_pos h1]
      exact ih (fun q hq => hall q (List.mem_cons_of_mem _ hq))

/-- C8: for every `Accept-Encoding` header in which every
comma-separated part naming `gzip` (case-insensitively) carries a `q`
parameter that parses to zero, `acceptsGzip` returns `false`, so the
compress middleware leaves the response uncompressed. -/
theorem acceptsGzip_rejects_qZero (header : String)
    (hall : ∀ part ∈ splitOnChar ',' header.data,
      (lowerL (trimL (goCutL ';' (trimL part)).1) = ['g', 'z', 'i', 'p']) →
        ¬((goCutL ';' (trimL part)).2 = []) ∧
          qZero ((goCutL ';' (trimL part)).2) = true) :
    acceptsGzip header = false := by
  unfold acceptsGzip
  exact acceptsGzipParts_rejects _ hall

/-- Witness for C8: zero-weight spellings of gzip are rejected, and
ordinary gzip headers are accepted. -/
theorem acceptsGzip_rejects_qZero_witness :
    acceptsGzip "gzip;q=0" = false ∧ acceptsGzip "gzip; q=0" = false ∧
    acceptsGzip "gzip;q=0.0, deflate" = false ∧
    acceptsGzip "GZIP;q=0.000" = false ∧
    acceptsGzip "gzip" = true ∧ acceptsGzip "gzip;q=0.5" = true :=
  ⟨acceptsGzip_rejects_qZero "gzip;q=0" (by decide),
   acceptsGzip_rejects_qZero "gzip; q=0" (by decide),
   acceptsGzip_rejects_qZero "gzip;q=0.0, deflate" (by decide),
   acceptsGzip_rejects_qZero "GZIP;q=0.000" (by decide),
   by decide, by decide⟩

/-! ## Snowflake request-id generator (`request_id.go`)

`snowflakeGenerator.generate` reads a monotonic-but-adjustable clock
through `g.timeNow`.  Each call is modelled with the list of successive
clock readings (`currentTimestampMs` results) it will observe; the spin
loops consume readings and return `none` when the supplied readings
never catch up (modelling an unbounded spin).  The produced hex string
is a fixed-width encoding of the 64-bit value, so the claims are stated
on the 64-bit value itself. -/

/-- 7-bit sequence bound `snowflakeMaxSequence` (`0x7F`). -/
def snowflakeMaxSequence : Nat := 127

/-- 16-bit machine mask `snowflakeMachineMask` (`0xFFFF`). -/
def snowflakeMachineMask : Nat := 65535

/-- `maxClockDriftMs`: backward drift tolerance in milliseconds. -/
def maxClockDriftMs : Int := 500

/-- `snowflakeMachineShift` (= sequence bits). -/
def snowflakeMachineShift : Nat := 7

/-- `snowflakeTimestampShift` (= sequence bits + machine bits). -/
def snowflakeTimestampShift : Nat := 23

/-- Mutable state of a `snowflakeGenerator`. -/
structure SnowflakeGen where
  machineID : Nat
  sequence : Nat
  lastTimestamp : Int
deriving DecidableEq

/-- `newSnowflakeGenerator`: machine ID is the FNV-1a hash of the
hostname masked to 16 bits (the hash itself is Go stdlib, supplied here
as `hostHash`); sequence and last timestamp start at their zero values. -/
def mkSnowflakeGen (hostHash : Nat) : SnowflakeGen :=
  { machineID := hostHash &&& snowflakeMachineMask, sequence := 0, lastTimestamp := 0 }

/-- Levels of the diagnostics `generate` emits. -/
inductive SnowLogLevel where
  | warn
  | error
deriving DecidableEq

/-- A diagnostic emitted by `generate`. -/
structure SnowLog where
  level : SnowLogLevel
  msg : String
deriving DecidableEq

/-- The spin loop `for now < bound { now = clock() }`: consumes readings
until one is `≥ bound`; `none` when the readings run out first. -/
def spinWhileLt (bound : Int) : Int → List Int → Option (Int × List Int)
  | now, rs =>
    if bound ≤ now then some (now, rs)
    else
      match rs with
      | [] => none
      | r :: rs2 => spinWhileLt bound r rs2

/-- The spin loop `for now <= bound { now = clock() }`: consumes
readings until one is `> bound`. -/
def spinWhileLe (bound : Int) : Int → List Int → Option (Int × List Int)
  | now, rs =>
    if bound < now then some (now, rs)
    else
      match rs with
      | [] => none
      | r :: rs2 => spinWhileLe bound r rs2

/-- The composed 64-bit snowflake value
`uint64(max(now,0)) << 23 | machineID << 7 | sequence`, with `uint64`
wraparound (`% 2 ^ 64` commutes with the bitwise ors, so a single final
truncation is exact for `machineID, sequence < 2 ^ 64`). -/
def snowId (ts : Int) (machineID seq : Nat) : Nat :=
  (((max ts 0).toNat <<< snowflakeTimestampShift) |||
      (machineID <<< snowflakeMachineShift) ||| seq) % (2 ^ 64)

/-- Backward-clock handling at the top of `generate`: spin for drifts
within tolerance, advance the logical clock to `last + 1` (with an
error-level diagnostic) beyond it.  Returns the effective `now`, the
(possibly reset) sequence, the unconsumed readings, and the
diagnostics. -/
def snowBackward (g : SnowflakeGen) (now0 : Int) (rest : List Int) :
    Option (Int × Nat × List Int × List SnowLog) :=
  if now0 < g.lastTimestamp then
    if g.lastTimestamp - now0 > maxClockDriftMs then
      some (g.lastTimestamp + 1, 0, rest,
        [⟨.error, "clock moved backward beyond tolerance, advancing from last known timestamp"⟩])
    else
      match spinWhileLt g.lastTimestamp now0 rest with
      | none => none
      | some (now1, rest1) =>
        some (now1, g.sequence, rest1, [⟨.warn, "clock moved backward, spin-waiting"⟩])
  else some (now0, g.sequence, rest, [])

/-- Sequence handling of `generate`: increment within the same
millisecond, spin to the next millisecond on 7-bit overflow, reset when
the clock advanced. -/
def snowSequence (g : SnowflakeGen) (now1 : Int) (seq0 : Nat) (rest1 : List Int) :
    Option (Int × Nat) :=
  if now1 = g.lastTimestamp then
    if seq0 + 1 > snowflakeMaxSequence then
      match spinWhileLe g.lastTimestamp now1 rest1 with
      | none => none
      | some (now2, _) => some (now2, 0)
    else some (now1, seq0 + 1)
  else some (now1, 0)

/-- `snowflakeGenerator.generate`, fed the clock readings this call will
observe.  Returns the 64-bit value, the updated state, and the
diagnostics emitted. -/
def generate (g : SnowflakeGen) : List Int → Option (Nat × SnowflakeGen × List SnowLog)
  | [] => none
  | now0 :: rest =>
    match snowBackward g now0 rest with
    | none => none
    | some (now1, seq0, rest1, logs) =>
      match snowSequence g now1 seq0 rest1 with
      | none => none
      | some (now2, seq2) =>
        some (snowId now2 g.machineID seq2,
          { g with sequence := seq2, lastTimestamp := now2 }, logs)

/-- A sequence of `generate` calls on one generator instance, each with
its own clock readings. -/
def runGenerate (g : SnowflakeGen) : List (List Int) → Option (List Nat × SnowflakeGen)
  | [] => some ([], g)
  | rs :: rest =>
    match generate g rs with
    | none => none
    | some (id, g1, _) =>
      match runGenerate g1 rest with
      | none => none
      | some (ids, gf) => some (id :: ids, gf)

theorem spinWhileLt_spec (bound : Int) (now : Int) (rs : List Int)
    (n : Int) (rs' : List Int) (h : spinWhileLt bound now rs = some (n, rs')) :
    bound ≤ n := by
  induction rs generalizing now with
  | nil =>
    unfold spinWhileLt at h
    split_ifs at h with h1
    simp only [Option.some.injEq, Prod.mk.injEq] at h
    omega
  | cons r rs2 ih =>
    unfold spinWhileLt at h
    split_ifs at h with h1
    · simp only [Option.some.injEq, Prod.mk.injEq] at h
      omega
    · exact ih r h

theorem spinWhileLe_spec (bound : Int) (now : Int) (rs : List Int)
    (n : Int) (rs' : List Int) (h : spinWhileLe bound now rs = some (n, rs')) :
    bound < n := by
  induction rs generalizing now with
  | nil =>
    unfold spinWhileLe at h
    split_ifs at h with h1
    simp only [Option.some.injEq, Prod.mk.injEq] at h
    omega
  | cons r rs2 ih =>
    unfold spinWhileLe at h
    split_ifs at h with h1
    · simp only [Option.some.injEq, Prod.mk.injEq] at h
      omega
    · exact ih r h

theorem lorMulAdd (m k b : Nat) (h : b < 2 ^ k) : (m * 2 ^ k) ||| b = m * 2 ^ k + b := by
  apply Nat.eq_of_testBit_eq
  intro i
  rw [Nat.testBit_lor, Nat.mul_comm m (2 ^ k), Nat.testBit_mul_pow_two_add m h i,
    Nat.testBit_mul_pow_two]
  rcases lt_or_le i k with hik | hik
  · simp [hik, Nat.not_le.mpr hik]
  · have hb : b.testBit i = false :=
      Nat.testBit_lt_two_pow (lt_of_lt_of_le h (Nat.pow_le_pow_right (by norm_num) hik))
    simp [hik, Nat.not_lt.mpr hik, hb, ge_iff_le]

theorem snowId_linear (ts : Int) (mid seq : Nat) (h0 : 0 ≤ ts) (h1 : ts < 2 ^ 41)
    (h2 : mid < 2 ^ 16) (h3 : seq ≤ snowflakeMaxSequence) :
    snowId ts mid seq = ts.toNat * 2 ^ 23 + mid * 2 ^ 7 + seq := by
  unfold snowId snowflakeTimestampShift snowflakeMachineShift
  have hmax : max ts 0 = ts := by omega
  rw [hmax, Nat.shiftLeft_eq, Nat.shiftLeft_eq]
  have hseq : seq < 2 ^ 7 := by
    unfold snowflakeMaxSequence at h3
    omega
  have hmid7 : mid * 2 ^ 7 < 2 ^ 23 := by
    have e7 : (2 : Nat) ^ 7 = 128 := by norm_num
    have e16 : (2 : Nat) ^ 16 = 65536 := by norm_num
    have e23 : (2 : Nat) ^ 23 = 8388608 := by norm_num
    rw [e7, e23]
    rw [e16] at h2
    omega
  rw [lorMulAdd _ 23 _ hmid7]
  have hfact : ts.toNat * 2 ^ 23 + mid * 2 ^ 7 = (ts.toNat * 2 ^ 16 + mid) * 2 ^ 7 := by
    ring
  rw [hfact, lorMulAdd _ 7 _ hseq, ← hfact]
  apply Nat.mod_eq_of_lt
  have hts : ts.toNat < 2 ^ 41 := by omega
  calc ts.toNat * 2 ^ 23 + mid * 2 ^ 7 + seq
      ≤ (2 ^ 41 - 1) * 2 ^ 23 + (2 ^ 16 - 1) * 2 ^ 7 + 127 := by
        apply Nat.add_le_add
        apply Nat.add_le_add
        · exact Nat.mul_le_mul_right _ (by omega)
        · exact Nat.mul_le_mul_right _ (by omega)
        · unfold snowflakeMaxSequence at h3
          exact h3
    _ < 2 ^ 64 := by norm_num

theorem snowId_strictMono (t1 t2 : Int) (mid s1 s2 : Nat)
    (h0 : 0 ≤ t1) (h1 : t2 < 2 ^ 41) (h2 : mid < 2 ^ 16)
    (h3 : s1 ≤ snowflakeMaxSequence) (h4 : s2 ≤ snowflakeMaxSequence)
    (hlt : t1 < t2 ∨ (t1 = t2 ∧ s1 < s2)) :
    snowId t1 mid s1 < snowId t2 mid s2 := by
  have h0' : 0 ≤ t2 := by omega
  have h1' : t1 < 2 ^ 41 := by omega
  rw [snowId_linear t1 mid s1 h0 h1' h2 h3, snowId_linear t2 mid s2 h0' h1 h2 h4]
  unfold snowflakeMaxSequence at h3 h4
  rcases hlt with hlt | ⟨heq, hlt⟩
  · have hti : t1.toNat < t2.toNat := by omega
    calc t1.toNat * 2 ^ 23 + mid * 2 ^ 7 + s1
        < t1.toNat * 2 ^ 23 + 2 ^ 23 := by
          have : mid * 2 ^ 7 + s1 < 2 ^ 23 := by
            have : mid * 2 ^ 7 ≤ (2 ^ 16 - 1) * 2 ^ 7 := Nat.mul_le_mul_right _ (by omega)
            omega
          omega
      _ = (t1.toNat + 1) * 2 ^ 23 := by ring
      _ ≤ t2.toNat * 2 ^ 23 := Nat.mul_le_mul_right _ (by omega)
      _ ≤ t2.toNat * 2 ^ 23 + mid * 2 ^ 7 + s2 := by omega
  · rw [heq]
    omega

theorem snowId_decode (ts : Int) (mid seq : Nat) (h0 : 0 ≤ ts) (h1 : ts < 2 ^ 41)
    (h2 : mid < 2 ^ 16) (h3 : seq ≤ snowflakeMaxSequence) :
    snowId ts mid seq >>> snowflakeTimestampShift = ts.toNat := by
  rw [snowId_linear ts mid seq h0 h1 h2 h3]
  unfold snowflakeTimestampShift snowflakeMaxSequence at *
  rw [Nat.shiftRight_eq_div_pow]
  have hrem : mid * 2 ^ 7 + seq < 2 ^ 23 := by
    have : mid * 2 ^ 7 ≤ (2 ^ 16 - 1) * 2 ^ 7 := Nat.mul_le_mul_right _ (by omega)
    omega
  rw [Nat.add_assoc, Nat.add_comm,
    Nat.add_mul_div_right _ _ (by norm_num : 0 < 2 ^ 23),
    Nat.div_eq_of_lt hrem, Nat.zero_add]

theorem snowBackward_spec (g : SnowflakeGen) (now0 : Int) (rest : List Int)
    (now1 : Int) (seq0 : Nat) (rest1 : List Int) (logs : List SnowLog)
    (h : snowBackward g now0 rest = some (now1, seq0, rest1, logs)) :
    (seq0 = g.sequence ∧ g.lastTimestamp ≤ now1) ∨
      (seq0 = 0 ∧ now1 = g.lastTimestamp + 1) := by
  unfold snowBackward at h
  split_ifs at h with h1 h2
  · simp only [Option.some.injEq, Prod.mk.injEq] at h
    right
    omega
  · split at h
    · cases h
    · rename_i n rs' hsp
      have hge := spinWhileLt_spec g.lastTimestamp now0 rest n rs' hsp
      simp only [Option.some.injEq, Prod.mk.injEq] at h
      left
      omega
  · simp only [Option.some.injEq, Prod.mk.injEq] at h
    left
    omega

theorem snowSequence_spec (g : SnowflakeGen) (now1 : Int) (seq0 : Nat)
    (rest1 : List Int) (now2 : Int) (seq2 : Nat)
    (hle : g.lastTimestamp ≤ now1)
    (h : snowSequence g now1 seq0 rest1 = some (now2, seq2)) :
    seq2 ≤ snowflakeMaxSequence ∧ now1 ≤ now2 ∧ g.lastTimestamp ≤ now2 ∧
      (g.lastTimestamp < now2 ∨ (now2 = g.lastTimestamp ∧ seq2 = seq0 + 1)) := by
  unfold snowSequence at h
  split_ifs at h with h1 h2
  · split at h
    · cases h
    · rename_i n rs' hsp
      have hgt := spinWhileLe_spec g.lastTimestamp now1 rest1 n rs' hsp
      simp only [Option.some.injEq, Prod.mk.injEq] at h
      unfold snowflakeMaxSequence
      omega
  · simp only [Option.some.injEq, Prod.mk.injEq] at h
    unfold snowflakeMaxSequence at h2 ⊢
    omega
  · simp only [Option.some.injEq, Prod.mk.injEq] at h
    unfold snowflakeMaxSequence
    omega

theorem generate_spec (g : SnowflakeGen) (rs : List Int) (id : Nat)
    (g' : SnowflakeGen) (logs : List SnowLog)
    (hts : 0 ≤ g.lastTimestamp) (_hseq : g.sequence ≤ snowflakeMaxSequence)
    (h : generate g rs = some (id, g', logs)) :
    0 ≤ g'.lastTimestamp ∧ g'.sequence ≤ snowflakeMaxSequence ∧
      g'.machineID = g.machineID ∧
      g.lastTimestamp ≤ g'.lastTimestamp ∧
      (g.lastTimestamp < g'.lastTimestamp ∨
        (g.lastTimestamp = g'.lastTimestamp ∧ g.sequence < g'.sequence)) ∧
      id = snowId g'.lastTimestamp g.machineID g'.sequence := by
  match rs with
  | [] => cases h
  | now0 :: rest =>
    simp only [generate] at h
    split at h
    · cases h
    · rename_i now1 seq0 rest1 logs1 hb
      have hback := snowBackward_spec g now0 rest now1 seq0 rest1 logs1 hb
      split at h
      · cases h
      · rename_i now2 seq2 hs
        have hle : g.lastTimestamp ≤ now1 := by
          rcases hback with ⟨_, hh⟩ | ⟨_, hh⟩ <;> omega
        have hstep := snowSequence_spec g now1 seq0 rest1 now2 seq2 hle hs
        simp only [Option.some.injEq, Prod.mk.injEq] at h
        obtain ⟨hid, hg', hlogs⟩ := h
        subst hg'
        refine ⟨by dsimp only; omega, by dsimp only; exact hstep.1, rfl,
          by dsimp only; omega, ?_, by dsimp only; exact hid.symm⟩
        dsimp only
        rcases hstep.2.2.2 with hlt | ⟨heq, hsucc⟩
        · left; exact hlt
        · rcases hback with ⟨hs0, _⟩ | ⟨hs0, hadv⟩
          · right
            exact ⟨heq.symm, by omega⟩
          · exfalso
            omega

/-- Lexicographic order on (timestamp, sequence) pairs: the pair of
each generated ID strictly exceeds the generator's previous pair. -/
def tsSeqLt (a b : Int × Nat) : Prop :=
  a.1 < b.1 ∨ (a.1 = b.1 ∧ a.2 < b.2)

theorem runGenerate_spec (g : SnowflakeGen) (calls : List (List Int))
    (ids : List Nat) (gf : SnowflakeGen)
    (hts : 0 ≤ g.lastTimestamp) (hseq : g.sequence ≤ snowflakeMaxSequence)
    (h : runGenerate g calls = some (ids, gf)) :
    0 ≤ gf.lastTimestamp ∧ gf.sequence ≤ snowflakeMaxSequence ∧
      gf.machineID = g.machineID ∧ g.lastTimestamp ≤ gf.lastTimestamp ∧
      ∃ ps : List (Int × Nat),
        ids = ps.map (fun p => snowId p.1 g.machineID p.2) ∧
        List.Chain tsSeqLt (g.lastTimestamp, g.sequence) ps ∧
        (∀ p ∈ ps, 0 ≤ p.1 ∧ p.1 ≤ gf.lastTimestamp ∧ p.2 ≤ snowflakeMaxSequence) := by
  induction calls generalizing g ids with
  | nil =>
    unfold runGenerate at h
    simp only [Option.some.injEq, Prod.mk.injEq] at h
    obtain ⟨hids, hgf⟩ := h
    subst hgf
    exact ⟨hts, hseq, rfl, le_refl _,
      [], by simp [hids], List.Chain.nil, by simp⟩
  | cons rs rest ih =>
    simp only [runGenerate] at h
    split at h
    · cases h
    · rename_i id g1 logs hg1
      split at h
      · cases h
      · rename_i ids1 gf1 hr
        simp only [Option.some.injEq, Prod.mk.injEq] at h
        obtain ⟨hids, hgf⟩ := h
        subst hgf
        subst hids
        have hgen := generate_spec g rs id g1 logs hts hseq hg1
        have hrec := ih g1 ids1 hgen.1 hgen.2.1 hr
        obtain ⟨hf1, hf2, hf3, hf4, ps1, hps1, hchain1, hbounds1⟩ := hrec
        refine ⟨hf1, hf2, by rw [hf3, hgen.2.2.1], by
          have := hgen.2.2.2.1
          omega, (g1.lastTimestamp, g1.sequence) :: ps1, ?_, ?_, ?_⟩
        · rw [List.map_cons]
          have hmid : g1.machineID = g.machineID := hgen.2.2.1
          rw [hmid] at hps1
          rw [← hps1, hgen.2.2.2.2.2]
        · exact List.Chain.cons (by
            rcases hgen.2.2.2.2.1 with hlt | ⟨heq, hlt⟩
            · exact Or.inl hlt
            · exact Or.inr ⟨heq, hlt⟩) hchain1
        · intro p hp
          rcases List.mem_cons.mp hp with hp | hp
          · rw [hp]
            refine ⟨hgen.1, hf4, hgen.2.1⟩
          · exact hbounds1 p hp

theorem chain_map_snowId_lt (mid : Nat) (hmid : mid < 2 ^ 16) (gfts : Int)
    (hgf : gfts < 2 ^ 41) (ps : List (Int × Nat))
    (hch : List.Chain' tsSeqLt ps)
    (hb : ∀ p ∈ ps, 0 ≤ p.1 ∧ p.1 ≤ gfts ∧ p.2 ≤ snowflakeMaxSequence) :
    List.Chain' (fun a b => a < b) (ps.map (fun p => snowId p.1 mid p.2)) := by
  induction ps with
  | nil => simp
  | cons p ps2 ih =>
    cases ps2 with
    | nil => simp
    | cons q ps3 =>
      rw [List.map_cons, List.map_cons, List.chain'_cons]
      rw [List.chain'_cons] at hch
      have hp := hb p (by simp)
      have hq := hb q (by simp)
      refine ⟨snowId_strictMono p.1 q.1 mid p.2 q.2 hp.1 (by omega) hmid
        hp.2.2 hq.2.2 ?_, ?_⟩
      · rcases hch.1 with hlt | ⟨heq, hlt⟩
        · exact Or.inl hlt
        · exact Or.inr ⟨heq, hlt⟩
      · simpa only [List.map_cons] using
          ih hch.2 (fun r hr => hb r (List.mem_cons_of_mem _ hr))

theorem chain_map_snowId_ts (mid : Nat) (hmid : mid < 2 ^ 16) (gfts : Int)
    (hgf : gfts < 2 ^ 41) (ps : List (Int × Nat))
    (hch : List.Chain' tsSeqLt ps)
    (hb : ∀ p ∈ ps, 0 ≤ p.1 ∧ p.1 ≤ gfts ∧ p.2 ≤ snowflakeMaxSequence) :
    List.Chain' (fun a b => a ≤ b)
      ((ps.map (fun p => snowId p.1 mid p.2)).map
        (fun i => i >>> snowflakeTimestampShift)) := by
  induction ps with
  | nil => simp
  | cons p ps2 ih =>
    cases ps2 with
    | nil => simp
    | cons q ps3 =>
      simp only [List.map_cons, List.chain'_cons]
      rw [List.chain'_cons] at hch
      have hp := hb p (by simp)
      have hq := hb q (by simp)
      have hdp := snowId_decode p.1 mid p.2 hp.1 (by omega) hmid hp.2.2
      have hdq := snowId_decode q.1 mid q.2 hq.1 (by omega) hmid hq.2.2
      refine ⟨?_, ?_⟩
      · rw [hdp, hdq]
        rcases hch.1 with hlt | ⟨heq, hlt⟩ <;> omega
      · have := ih hch.2 (fun r hr => hb r (List.mem_cons_of_mem _ hr))
        simpa only [List.map_cons] using this

/-- C2: for a single generator instance started from its zero state, a
sequence of `generate` calls that all complete (the supplied clock
readings let every spin terminate) and stay within the 41-bit timestamp
range yields pairwise-distinct 64-bit values — indeed strictly
increasing ones — and the decoded millisecond component is
non-decreasing across the full sequence of calls, even when the
injected clock moves backward. -/
theorem snowflake_ids_unique_monotone (hostHash : Nat) (calls : List (List Int))
    (ids : List Nat) (gf : SnowflakeGen)
    (hrun : runGenerate (mkSnowflakeGen hostHash) calls = some (ids, gf))
    (hbound : gf.lastTimestamp < 2 ^ 41) :
    List.Pairwise (fun a b => a ≠ b) ids ∧
    List.Chain' (fun a b => a < b) ids ∧
    List.Chain' (fun a b => a ≤ b)
      (ids.map (fun i => i >>> snowflakeTimestampShift)) := by
  have hmid : (mkSnowflakeGen hostHash).machineID < 2 ^ 16 := by
    show hostHash &&& snowflakeMachineMask < 2 ^ 16
    unfold snowflakeMachineMask
    have hle : hostHash &&& 65535 ≤ 65535 := Nat.and_le_right
    omega
  have hspec := runGenerate_spec (mkSnowflakeGen hostHash) calls ids gf
    (le_refl 0) (Nat.zero_le _) hrun
  obtain ⟨hf1, hf2, hf3, hf4, ps, hps, hchain, hbounds⟩ := hspec
  have hchain' : List.Chain' tsSeqLt ps := by
    cases ps with
    | nil => exact trivial
    | cons p ps2 =>
      exact (List.chain_cons.mp hchain).2
  have hlt := chain_map_snowId_lt (mkSnowflakeGen hostHash).machineID hmid
    gf.lastTimestamp hbound ps hchain' hbounds
  rw [← hps] at hlt
  have hts := chain_map_snowId_ts (mkSnowflakeGen hostHash).machineID hmid
    gf.lastTimestamp hbound ps hchain' hbounds
  rw [← hps] at hts
  refine ⟨?_, hlt, hts⟩
  have hpw : List.Pairwise (fun a b : Nat => a < b) ids :=
    (List.chain'_iff_pairwise.mp hlt)
  exact hpw.imp (fun hab => Nat.ne_of_lt hab)

/-- Witness for C2: five calls on one instance, including a same-
millisecond call and a beyond-tolerance backward clock jump; the IDs
are pairwise distinct. -/
theorem snowflake_ids_unique_monotone_witness :
    runGenerate (mkSnowflakeGen 5) [[1000], [1000], [400], [1001], [1500]]
      = some ([8388608640, 8388608641, 8396997248, 8396997249, 12582912640],
          ⟨5, 0, 1500⟩) ∧
    List.Pairwise (fun a b => a ≠ b)
      ([8388608640, 8388608641, 8396997248, 8396997249, 12582912640] : List Nat) :=
  ⟨by decide,
   (snowflake_ids_unique_monotone 5 [[1000], [1000], [400], [1001], [1500]]
      [8388608640, 8388608641, 8396997248, 8396997249, 12582912640]
      ⟨5, 0, 1500⟩ (by decide) (by decide)).1⟩

/-- C6: when the current clock reading is behind the last recorded
timestamp: if the backward drift exceeds the 500 ms tolerance,
`generate` advances the logical timestamp to `last + 1`, resets the
sequence to 0 and emits an error-level diagnostic instead of blocking;
if the drift is at most the tolerance it emits a warning and spin-waits,
re-reading the clock until it catches up (never completing on readings
that stay behind), then proceeds with the caught-up reading. -/
theorem snowflake_backward_clock (g : SnowflakeGen) (now0 : Int) (rs : List Int)
    (hb : now0 < g.lastTimestamp) :
    (maxClockDriftMs < g.lastTimestamp - now0 →
      generate g (now0 :: rs)
        = some (snowId (g.lastTimestamp + 1) g.machineID 0,
            { g with sequence := 0, lastTimestamp := g.lastTimestamp + 1 },
            [⟨.error,
              "clock moved backward beyond tolerance, advancing from last known timestamp"⟩])) ∧
    (g.lastTimestamp - now0 ≤ maxClockDriftMs →
      (spinWhileLt g.lastTimestamp now0 rs = none →
        generate g (now0 :: rs) = none) ∧
      (∀ n rs', spinWhileLt g.lastTimestamp now0 rs = some (n, rs') →
        g.lastTimestamp ≤ n ∧
        generate g (now0 :: rs)
          = (snowSequence g n g.sequence rs').map (fun p =>
              (snowId p.1 g.machineID p.2,
               { g with sequence := p.2, lastTimestamp := p.1 },
               [(⟨.warn, "clock moved backward, spin-waiting"⟩ : SnowLog)])))) := by
  constructor
  · intro hd
    have h1 : snowBackward g now0 rs
        = some (g.lastTimestamp + 1, 0, rs,
            [⟨.error,
              "clock moved backward beyond tolerance, advancing from last known timestamp"⟩]) := by
      unfold snowBackward
      rw [if_pos hb, if_pos hd]
    have h2 : snowSequence g (g.lastTimestamp + 1) 0 rs
        = some (g.lastTimestamp + 1, 0) := by
      unfold snowSequence
      rw [if_neg (by omega)]
    simp only [generate, h1, h2]
  · intro hd
    constructor
    · intro hsp
      have h1 : snowBackward g now0 rs = none := by
        unfold snowBackward
        rw [if_pos hb, if_neg (by omega)]
        simp only [hsp]
      simp only [generate, h1]
    · intro n rs' hsp
      have hge := spinWhileLt_spec g.lastTimestamp now0 rs n rs' hsp
      have h1 : snowBackward g now0 rs
          = some (n, g.sequence, rs',
              [⟨.warn, "clock moved backward, spin-waiting"⟩]) := by
        unfold snowBackward
        rw [if_pos hb, if_neg (by omega)]
        simp only [hsp]
      refine ⟨hge, ?_⟩
      simp only [generate, h1]
      rcases hs2 : snowSequence g n g.sequence rs' with _ | ⟨a, b⟩ <;>
        simp [hs2]

/-- Witness for C6: a 900 ms backward jump forces a logical advance with
an error diagnostic; a 100 ms jump spin-waits through two readings and
then proceeds with a warning. -/
theorem snowflake_backward_clock_witness :
    generate ⟨3, 0, 1000⟩ [100]
      = some (8396996992, ⟨3, 0, 1001⟩,
          [⟨.error,
            "clock moved backward beyond tolerance, advancing from last known timestamp"⟩]) ∧
    generate ⟨3, 0, 1000⟩ [900, 950, 1000]
      = some (8388608385, ⟨3, 1, 1000⟩,
          [⟨.warn, "clock moved backward, spin-waiting"⟩]) := by
  constructor
  · have h := (snowflake_backward_clock ⟨3, 0, 1000⟩ 100 [] (by decide)).1 (by decide)
    exact h.trans (by decide)
  · have h := ((snowflake_backward_clock ⟨3, 0, 1000⟩ 900 [950, 1000]
        (by decide)).2 (by decide)).2 1000 [] (by decide)
    exact h.2.trans (by decide)

/-! ## Token-bucket rate limiter (`ratelimit.go`)

`float64` token arithmetic is modelled with exact rationals; `time.Time`
is modelled as rational seconds and `time.Duration` as integer
nanoseconds.  In `tryAcquire` the deficit and rate are positive, so Go's
truncating `time.Duration(...)` conversion coincides with the floor. -/

/-- `tokenBucket`. -/
structure TokenBucket where
  tokens : ℚ
  maxTokens : ℚ
  refillRate : ℚ
  lastRefillTime : ℚ
deriving DecidableEq

/-- `newTokenBucket`, created at wall-clock time `now` (seconds). -/
def newTokenBucket (requestsPerSecond : ℚ) (burst : ℤ) (now : ℚ) : TokenBucket :=
  { tokens := (burst : ℚ), maxTokens := (burst : ℚ),
    refillRate := requestsPerSecond, lastRefillTime := now }

/-- `tokenBucket.tryAcquire` at time `now`: refill proportionally to
elapsed time capped at capacity; admit if at least one token is
available, otherwise report the time until one token accrues
(`(1 - tokens) / rate` seconds as truncated integer nanoseconds). -/
def tryAcquire (tb : TokenBucket) (now : ℚ) : Bool × ℤ × TokenBucket :=
  let elapsed := max 0 (now - tb.lastRefillTime)
  let tokens := min tb.maxTokens (tb.tokens + elapsed * tb.refillRate)
  if 1 ≤ tokens then
    (true, 0, { tb with tokens := tokens - 1, lastRefillTime := now })
  else
    let deficit := 1 - tokens
    (false, ⌊deficit / tb.refillRate * 1000000000⌋,
      { tb with tokens := tokens, lastRefillTime := now })

/-- The 429 path of `RateLimit`: the `Retry-After` header value,
`max(int(math.Ceil(retryAfter.Seconds())), 1)`. -/
def retryAfterSeconds (retryAfterNs : ℤ) : ℤ :=
  max ⌈(retryAfterNs : ℚ) / 1000000000⌉ 1

/-- One request through the `RateLimit` middleware at time `now`:
`none` means admitted (the wrapped handler runs), `some s` means a 429
response carrying `Retry-After: s`. -/
def rateLimitStep (tb : TokenBucket) (now : ℚ) : Option ℤ × TokenBucket :=
  let r := tryAcquire tb now
  if r.1 then (none, r.2.2) else (some (retryAfterSeconds r.2.1), r.2.2)

/-- A sequence of requests at the given times. -/
def runRateLimit (tb : TokenBucket) : List ℚ → List (Option ℤ) × TokenBucket
  | [] => ([], tb)
  | t :: ts =>
    let r := rateLimitStep tb t
    let rest := runRateLimit r.2 ts
    (r.1 :: rest.1, rest.2)

theorem runRateLimit_append (tb : TokenBucket) (l1 l2 : List ℚ) :
    runRateLimit tb (l1 ++ l2)
      = ((runRateLimit tb l1).1 ++ (runRateLimit (runRateLimit tb l1).2 l2).1,
         (runRateLimit (runRateLimit tb l1).2 l2).2) := by
  induction l1 generalizing tb with
  | nil => simp [runRateLimit]
  | cons t ts ih => simp [runRateLimit, ih]

theorem tryAcquire_admits (c m r t0 now : ℚ)
    (hnow : now ≤ t0)
    (h1 : 1 ≤ c) (hcm : c ≤ m) :
    tryAcquire ⟨c, m, r, t0⟩ now = (true, 0, ⟨c - 1, m, r, now⟩) := by
  unfold tryAcquire
  dsimp only
  rw [show (0 : ℚ) ⊔ (now - t0) = 0 from by rw [max_eq_left]; linarith]
  rw [show m ⊓ (c + 0 * r) = c from by rw [zero_mul, add_zero, min_eq_right hcm]]
  rw [if_pos h1]

theorem tryAcquire_reject (c m r t0 now : ℚ)
    (hnow : now ≤ t0)
    (h1 : c < 1) (hcm : c ≤ m) :
    tryAcquire ⟨c, m, r, t0⟩ now
      = (false, ⌊(1 - c) / r * 1000000000⌋, ⟨c, m, r, now⟩) := by
  unfold tryAcquire
  dsimp only
  rw [show (0 : ℚ) ⊔ (now - t0) = 0 from by rw [max_eq_left]; linarith]
  rw [show m ⊓ (c + 0 * r) = c from by rw [zero_mul, add_zero, min_eq_right hcm]]
  rw [if_neg (by linarith)]

theorem rateLimitStep_admits (c m r t0 now : ℚ)
    (hnow : now ≤ t0)
    (h1 : 1 ≤ c) (hcm : c ≤ m) :
    rateLimitStep ⟨c, m, r, t0⟩ now = (none, ⟨c - 1, m, r, now⟩) := by
  unfold rateLimitStep
  rw [tryAcquire_admits c m r t0 now hnow h1 hcm]
  rfl

theorem rateLimitStep_reject (c m r t0 now : ℚ)
    (hnow : now ≤ t0)
    (h1 : c < 1) (hcm : c ≤ m) :
    rateLimitStep ⟨c, m, r, t0⟩ now
      = (some (retryAfterSeconds ⌊(1 - c) / r * 1000000000⌋), ⟨c, m, r, now⟩) := by
  unfold rateLimitStep
  rw [tryAcquire_reject c m r t0 now hnow h1 hcm]
  rfl

theorem runRateLimit_burst (m c r t0 : ℚ) (k : ℕ)
    (hc : (k : ℚ) ≤ c) (hcm : c ≤ m) :
    runRateLimit ⟨c, m, r, t0⟩ (List.replicate k t0)
      = (List.replicate k none, ⟨c - k, m, r, t0⟩) := by
  induction k generalizing c with
  | zero => simp [runRateLimit]
  | succ k ih =>
    rw [List.replicate_succ]
    have h1 : 1 ≤ c := by
      push_cast at hc
      linarith
    have hstep := rateLimitStep_admits c m r t0 t0 (le_refl _) h1 hcm
    have hrec := ih (c - 1) (by push_cast at hc ⊢; linarith) (by linarith)
    rw [List.replicate_succ]
    simp only [runRateLimit, hstep, hrec]
    refine Prod.ext rfl ?_
    exact congrArg (fun x => TokenBucket.mk x m r t0) (by push_cast; ring)

/-- C3: with positive rate `r` and positive burst `b`, `b` requests
issued instantaneously all succeed; the next request is rejected with a
`Retry-After` value of at least 1 second, computed as the token deficit
time `(1 - tokens)/r` in truncated nanoseconds, rounded up to whole
seconds with a minimum of 1 (exactly `⌈1/r⌉ ⊔ 1` whenever `1/r`
converts to a whole number of nanoseconds); after waiting `1/r` seconds
exactly one more request succeeds (the following one is rejected
again). -/
theorem rateLimit_burst_behavior (r : ℚ) (b : ℤ) (t0 : ℚ)
    (hr : 0 < r) (hb : 1 ≤ b) :
    runRateLimit (newTokenBucket r b t0)
        (List.replicate b.toNat t0 ++ [t0] ++ [t0 + 1 / r, t0 + 1 / r])
      = (List.replicate b.toNat none
          ++ [some (retryAfterSeconds ⌊(1 : ℚ) / r * 1000000000⌋)]
          ++ [none, some (retryAfterSeconds ⌊(1 : ℚ) / r * 1000000000⌋)],
         ⟨0, (b : ℚ), r, t0 + 1 / r⟩) ∧
    1 ≤ retryAfterSeconds ⌊(1 : ℚ) / r * 1000000000⌋ ∧
    (((1 : ℚ) / r * 1000000000).den = 1 →
      retryAfterSeconds ⌊(1 : ℚ) / r * 1000000000⌋ = max ⌈1 / r⌉ 1) := by
  have hbq : (1 : ℚ) ≤ (b : ℚ) := by exact_mod_cast hb
  have hbt0 : ((b.toNat : ℤ)) = b := Int.toNat_of_nonneg (by omega)
  have hbt : ((b.toNat : ℚ)) = (b : ℚ) := by exact_mod_cast hbt0
  -- the b instantaneous requests
  have hburst := runRateLimit_burst (b : ℚ) (b : ℚ) r t0 b.toNat
    (by rw [hbt]) (le_refl _)
  have hzero : ((b : ℚ) - (b.toNat : ℚ)) = 0 := by
    rw [hbt]
    ring
  rw [hzero] at hburst
  -- the immediate (b+1)-st request: rejected
  have hrej := rateLimitStep_reject 0 (b : ℚ) r t0 t0 (le_refl _)
    (by norm_num) (by linarith)
  rw [sub_zero] at hrej
  -- after 1/r seconds: one token has accrued
  have hstep3 : rateLimitStep ⟨0, (b : ℚ), r, t0⟩ (t0 + 1 / r)
      = (none, ⟨0, (b : ℚ), r, t0 + 1 / r⟩) := by
    unfold rateLimitStep tryAcquire
    dsimp only
    have he : (0 : ℚ) ⊔ (t0 + 1 / r - t0) = 1 / r := by
      have h2 : t0 + 1 / r - t0 = 1 / r := by ring
      rw [h2, max_eq_right (by positivity)]
    rw [he]
    have ht : min (b : ℚ) (0 + 1 / r * r) = 1 := by
      rw [zero_add, div_mul_cancel₀ _ (ne_of_gt hr), min_eq_right hbq]
    rw [ht, if_pos (le_refl _)]
    norm_num
  have hstep4 : rateLimitStep ⟨0, (b : ℚ), r, t0 + 1 / r⟩ (t0 + 1 / r)
      = (some (retryAfterSeconds ⌊(1 : ℚ) / r * 1000000000⌋),
         ⟨0, (b : ℚ), r, t0 + 1 / r⟩) := by
    have := rateLimitStep_reject 0 (b : ℚ) r (t0 + 1 / r) (t0 + 1 / r)
      (le_refl _) (by norm_num) (by linarith)
    rw [sub_zero] at this
    exact this
  refine ⟨?_, ?_, ?_⟩
  · rw [runRateLimit_append, runRateLimit_append]
    rw [show runRateLimit (newTokenBucket r b t0) (List.replicate b.toNat t0)
        = (List.replicate b.toNat none, ⟨0, (b : ℚ), r, t0⟩) from hburst]
    dsimp only
    simp only [runRateLimit, hrej, hstep3, hstep4]
  · unfold retryAfterSeconds
    exact le_max_right _ _
  · intro hden
    unfold retryAfterSeconds
    have hnum : ((((1 : ℚ) / r * 1000000000).num : ℚ)) = (1 : ℚ) / r * 1000000000 :=
      Rat.den_eq_one_iff _ |>.mp hden
    have hfq : ((⌊(1 : ℚ) / r * 1000000000⌋ : ℚ)) = (1 : ℚ) / r * 1000000000 := by
      have h1 : ⌊(1 : ℚ) / r * 1000000000⌋ = ((1 : ℚ) / r * 1000000000).num := by
        conv_lhs => rw [← hnum]
        exact Int.floor_intCast _
      rw [h1, hnum]
    rw [hfq, mul_div_cancel_right₀ _ (by norm_num : (1000000000 : ℚ) ≠ 0)]

/-- Witness for C3: rate 1, burst 1 — the first request succeeds, the
second immediate request is rejected with `Retry-After: 1`, one more
succeeds after waiting 1 second, and the next immediate one is rejected
again. -/
theorem rateLimit_burst_behavior_witness :
    runRateLimit (newTokenBucket 1 1 0) [0, 0, 1, 1]
      = ([none, some 1, none, some 1], ⟨0, 1, 1, 1⟩) := by
  have h := (rateLimit_burst_behavior 1 1 0 (by norm_num) (by norm_num)).1
  have hsched : List.replicate (1 : ℤ).toNat (0 : ℚ) ++ [0] ++ [0 + 1 / 1, 0 + 1 / 1]
      = [0, 0, 1, 1] := by norm_num [List.replicate]
  rw [hsched] at h
  rw [h]
  norm_num [retryAfterSeconds, List.replicate, Prod.mk.injEq, TokenBucket.mk.injEq]

/-! ## CORS middleware (`cors.go`)

Built once from functional options; per-request matching extracts the
hostname from the `Origin` header and checks the lower-cased hostname
set or the wildcard flag. -/

/-- `strings.ToLower` on a string (rune-wise lowering). -/
def lowerS (s : String) : String :=
  ⟨lowerL s.data⟩

/-- `strings.Join(xs, ", ")`. -/
def joinComma (xs : List String) : String :=
  ⟨((xs.map String.data).intersperse [',', ' ']).flatten⟩

/-- `strconv.Itoa`, via a fuel-bounded digit expansion. -/
def natCharsAux : Nat → Nat → List Char
  | 0, _ => []
  | fuel + 1, n =>
    if n < 10 then [Char.ofNat (48 + n)]
    else natCharsAux fuel (n / 10) ++ [Char.ofNat (48 + n % 10)]

/-- `strconv.Itoa` for the `maxAge` header value. -/
def intToString (i : Int) : String :=
  match i with
  | .ofNat n => ⟨natCharsAux (n + 1) n⟩
  | .negSucc m => ⟨'-' :: natCharsAux (m + 2) (m + 1)⟩

/-- An `OriginValidator`: `none` accepts the entry, `some msg` rejects
it with a reason. -/
abbrev OriginValidator := String → Option String

/-- `defaultCORSMaxAge`. -/
def defaultCORSMaxAge : Int := 3600

/-- `corsConfig`, with the zero-option defaults `CORS()` installs:
wildcard origin, methods GET/HEAD/POST, the four common headers,
max age 3600, credentials and exposed headers off. -/
structure CorsConfig where
  allowedOrigins : List String := ["*"]
  allowedMethods : List String := ["GET", "HEAD", "POST"]
  allowedHeaders : List String := ["Origin", "Accept", "Content-Type", "X-Requested-With"]
  exposedHeaders : List String := []
  validateOrigins : List OriginValidator := []
  allowCredentials : Bool := false
  maxAge : Int := defaultCORSMaxAge

/-- `validateOrigin`: every validator must accept (nil validators are
skipped; a failing entry is dropped with a logged reason). -/
def validateOrigin (origin : String) (validators : List OriginValidator) : Bool :=
  validators.all (fun v => (v origin).isNone)

/-- The construction-time partition of the configured origins into the
lower-cased bare-hostname set and the wildcard flag; invalid and empty
entries are dropped. -/
def partitionOrigins (cfg : CorsConfig) : List String × Bool :=
  cfg.allowedOrigins.foldl
    (fun acc hostname =>
      if ¬(validateOrigin hostname cfg.validateOrigins) then acc
      else if hostname = "" then acc
      else if hostname = "*" then (acc.1, true)
      else (acc.1 ++ [lowerS hostname], acc.2))
    ([], false)

/-- The immutable per-middleware state `CORS` captures in its closure. -/
structure CorsState where
  allowedHostnames : List String
  wildcard : Bool
  allowCredentials : Bool
  methods : String
  headersJoined : String
  exposedHeaders : String
  maxAge : Int
  warnLogs : List String

/-- `CORS` construction: partition the origins, then apply the
credentials adjustment — credentials with only the wildcard are
force-disabled with a logged warning, credentials with explicit
hostnames disable wildcard matching instead. -/
def buildCors (cfg : CorsConfig) : CorsState :=
  let p := partitionOrigins cfg
  let adj : Bool × Bool × List String :=
    if cfg.allowCredentials then
      if p.2 ∧ p.1 = [] then
        (false, p.2,
          ["middleware: CORS AllowCredentials with only wildcard origin is invalid, disabling credentials"])
      else (cfg.allowCredentials, false, [])
    else (cfg.allowCredentials, p.2, [])
  { allowedHostnames := p.1
    wildcard := adj.2.1
    allowCredentials := adj.1
    methods := joinComma cfg.allowedMethods
    headersJoined := joinComma cfg.allowedHeaders
    exposedHeaders := joinComma cfg.exposedHeaders
    maxAge := cfg.maxAge
    warnLogs := adj.2.2 }

/-- Model of the Go stdlib `url.Parse` step of `extractHostname`: the
text after the first `:` when it is followed by `//` (no authority — and
hence no hostname — otherwise).  Faithful for origins whose scheme is
alphabetic, which the claims quantify over. -/
def dropSchemeL : List Char → Option (List Char)
  | [] => none
  | c :: rest =>
    if c = ':' then
      match rest with
      | '/' :: '/' :: r2 => some r2
      | _ => none
    else dropSchemeL rest

/-- `extractHostname` on rune lists: authority text up to `/`, `?` or
`#`, then stripped of the `:port` suffix. -/
def extractHostL (l : List Char) : List Char :=
  match dropSchemeL l with
  | none => []
  | some rest =>
    (rest.takeWhile (fun c => ¬(c = '/' ∨ c = '?' ∨ c = '#'))).takeWhile
      (fun c => ¬(c = ':'))

/-- `extractHostname`: the hostname component of an origin URL, `""`
for malformed origins. -/
def extractHostname (origin : String) : String :=
  ⟨extractHostL origin.data⟩

/-- The request fields the CORS middleware reads. -/
structure CorsRequest where
  method : String
  origin : String
  acrm : String
deriving DecidableEq

/-- The response-visible effect of the CORS middleware on one request:
headers set, a directly-written status (preflights), and whether the
wrapped handler ran. -/
structure CorsResponse where
  headers : Headers
  status : Option Nat
  handlerCalled : Bool
deriving DecidableEq

/-- The request-handling closure `CORS` returns. -/
def corsHandle (st : CorsState) (req : CorsRequest) : CorsResponse :=
  let hs : Headers := hAdd [] "Vary" "Origin"
  if req.origin = "" then
    { headers := hs, status := none, handlerCalled := true }
  else
    let hostname := lowerS (extractHostname req.origin)
    let matched := st.allowedHostnames.contains hostname
    if ¬matched ∧ ¬st.wildcard then
      { headers := hs, status := none, handlerCalled := true }
    else
      let hs := if st.wildcard then hSet hs "Access-Control-Allow-Origin" "*"
        else hSet hs "Access-Control-Allow-Origin" req.origin
      let hs := if st.allowCredentials then
          hSet hs "Access-Control-Allow-Credentials" "true"
        else hs
      let hs := if ¬(st.exposedHeaders = "") then
          hSet hs "Access-Control-Expose-Headers" st.exposedHeaders
        else hs
      if req.method = "OPTIONS" ∧ ¬(req.acrm = "") then
        let hs := hAdd hs "Vary" "Access-Control-Request-Method"
        let hs := hAdd hs "Vary" "Access-Control-Request-Headers"
        let hs := if ¬(st.methods = "") then
            hSet hs "Access-Control-Allow-Methods" st.methods
          else hs
        let hs := if ¬(st.headersJoined = "") then
            hSet hs "Access-Control-Allow-Headers" st.headersJoined
          else hs
        let hs := if 0 < st.maxAge then
            hSet hs "Access-Control-Max-Age" (intToString st.maxAge)
          else hs
        { headers := hs, status := some 204, handlerCalled := false }
      else
        { headers := hs, status := none, handlerCalled := true }

theorem hGet_hAdd_ne (hs : Headers) (k k' v : String) (h : k ≠ k') :
    hGet (hAdd hs k v) k' = hGet hs k' := by
  unfold hGet hAdd
  rw [List.find?_append]
  have h2 : ([((k : String), v)].find? fun p => p.1 = k') = none := by
    simp [List.find?_cons, h]
  rw [h2]
  cases hs.find? (fun p => p.1 = k') <;> simp

theorem hGet_hSet_ite_ne (c : Prop) [Decidable c] (hs : Headers) (k v k' : String)
    (h : k ≠ k') :
    hGet (if c then hSet hs k v else hs) k' = hGet hs k' := by
  split_ifs
  · rw [hGet_hSet_ne _ _ _ _ h]
  · rfl

/-- Per-request behaviour of the CORS handler when the wildcard flag is
on and credentials are off: every request with a nonempty `Origin` gets
`Access-Control-Allow-Origin: *`, never an
`Access-Control-Allow-Credentials` header; preflights are answered 204
without the wrapped handler, all other requests fall through to it. -/
theorem corsHandle_wildcard (st : CorsState) (hw : st.wildcard = true)
    (hc : st.allowCredentials = false) (m origin acrm : String)
    (ho : ¬(origin = "")) :
    hGet (corsHandle st ⟨m, origin, acrm⟩).headers "Access-Control-Allow-Origin" = "*" ∧
    hGet (corsHandle st ⟨m, origin, acrm⟩).headers "Access-Control-Allow-Credentials" = "" ∧
    ((m = "OPTIONS" ∧ ¬(acrm = "")) →
      (corsHandle st ⟨m, origin, acrm⟩).status = some 204 ∧
      (corsHandle st ⟨m, origin, acrm⟩).handlerCalled = false) ∧
    (¬(m = "OPTIONS" ∧ ¬(acrm = "")) →
      (corsHandle st ⟨m, origin, acrm⟩).status = none ∧
      (corsHandle st ⟨m, origin, acrm⟩).handlerCalled = true) := by
  unfold corsHandle
  rw [if_neg ho]
  dsimp only
  rw [if_neg (by simp [hw])]
  simp only [hw, hc, if_true, Bool.false_eq_true, if_false]
  by_cases hpre : m = "OPTIONS" ∧ ¬(acrm = "")
  · rw [if_pos hpre]
    dsimp only
    refine ⟨?_, ?_, fun _ => ⟨rfl, rfl⟩, fun hn => absurd hpre hn⟩
    · rw [hGet_hSet_ite_ne _ _ _ _ _ (by decide),
        hGet_hSet_ite_ne _ _ _ _ _ (by decide),
        hGet_hSet_ite_ne _ _ _ _ _ (by decide),
        hGet_hAdd_ne _ _ _ _ (by decide), hGet_hAdd_ne _ _ _ _ (by decide),
        hGet_hSet_ite_ne _ _ _ _ _ (by decide), hGet_hSet_self]
    · rw [hGet_hSet_ite_ne _ _ _ _ _ (by decide),
        hGet_hSet_ite_ne _ _ _ _ _ (by decide),
        hGet_hSet_ite_ne _ _ _ _ _ (by decide),
        hGet_hAdd_ne _ _ _ _ (by decide), hGet_hAdd_ne _ _ _ _ (by decide),
        hGet_hSet_ite_ne _ _ _ _ _ (by decide),
        hGet_hSet_ne _ _ _ _ (by decide), hGet_hAdd_ne _ _ _ _ (by decide)]
      rfl
  · rw [if_neg hpre]
    dsimp only
    refine ⟨?_, ?_, fun hy => absurd hy hpre, fun _ => ⟨rfl, rfl⟩⟩
    · rw [hGet_hSet_ite_ne _ _ _ _ _ (by decide), hGet_hSet_self]
    · rw [hGet_hSet_ite_ne _ _ _ _ _ (by decide),
        hGet_hSet_ne _ _ _ _ (by decide), hGet_hAdd_ne _ _ _ _ (by decide)]
      rfl

/-- C10: `CORS()` with zero options defaults to wildcard origin
matching — every request with a nonempty `Origin` header receives
`Access-Control-Allow-Origin: *` — with allowed methods GET, HEAD,
POST, allowed headers Origin, Accept, Content-Type, X-Requested-With,
preflight max age 3600 seconds, and credentials and exposed headers
disabled. -/
theorem cors_zero_options_defaults :
    ((buildCors {}).wildcard = true ∧
     (buildCors {}).allowedHostnames = [] ∧
     (buildCors {}).allowCredentials = false ∧
     (buildCors {}).methods = "GET, HEAD, POST" ∧
     (buildCors {}).headersJoined = "Origin, Accept, Content-Type, X-Requested-With" ∧
     (buildCors {}).exposedHeaders = "" ∧
     (buildCors {}).maxAge = 3600) ∧
    ∀ m origin acrm : String, ¬(origin = "") →
      ((m = "OPTIONS" ∧ ¬(acrm = "")) →
        corsHandle (buildCors {}) ⟨m, origin, acrm⟩
          = ⟨[("Vary", "Origin"), ("Access-Control-Allow-Origin", "*"),
              ("Vary", "Access-Control-Request-Method"),
              ("Vary", "Access-Control-Request-Headers"),
              ("Access-Control-Allow-Methods", "GET, HEAD, POST"),
              ("Access-Control-Allow-Headers",
                "Origin, Accept, Content-Type, X-Requested-With"),
              ("Access-Control-Max-Age", "3600")], some 204, false⟩) ∧
      (¬(m = "OPTIONS" ∧ ¬(acrm = "")) →
        corsHandle (buildCors {}) ⟨m, origin, acrm⟩
          = ⟨[("Vary", "Origin"), ("Access-Control-Allow-Origin", "*")],
             none, true⟩) := by
  refine ⟨by decide, ?_⟩
  intro m origin acrm ho
  have hw : (buildCors {}).wildcard = true := by decide
  constructor
  · intro hpre
    unfold corsHandle
    rw [if_neg ho]
    dsimp only
    rw [if_neg (fun h => h.2 hw)]
    rw [if_pos hw,
      if_neg (show ¬((buildCors {}).allowCredentials = true) from by decide),
      if_neg (show ¬¬((buildCors {}).exposedHeaders = "") from
        not_not_intro (by decide)),
      if_pos hpre,
      if_pos (show ¬((buildCors {}).methods = "") from by decide),
      if_pos (show ¬((buildCors {}).headersJoined = "") from by decide),
      if_pos (show (0 : Int) < (buildCors {}).maxAge from by decide)]
    decide
  · intro hpre
    unfold corsHandle
    rw [if_neg ho]
    dsimp only
    rw [if_neg (fun h => h.2 hw)]
    rw [if_pos hw,
      if_neg (show ¬((buildCors {}).allowCredentials = true) from by decide),
      if_neg (show ¬¬((buildCors {}).exposedHeaders = "") from
        not_not_intro (by decide)),
      if_neg hpre]
    decide

/-- Witness for C10: a plain GET with an arbitrary origin gets
`Access-Control-Allow-Origin: *`; a preflight is answered 204 with the
default methods, headers and max age. -/
theorem cors_zero_options_defaults_witness :
    corsHandle (buildCors {}) ⟨"GET", "https://anything.example", ""⟩
      = ⟨[("Vary", "Origin"), ("Access-Control-Allow-Origin", "*")], none, true⟩ ∧
    corsHandle (buildCors {}) ⟨"OPTIONS", "https://anything.example", "POST"⟩
      = ⟨[("Vary", "Origin"), ("Access-Control-Allow-Origin", "*"),
          ("Vary", "Access-Control-Request-Method"),
          ("Vary", "Access-Control-Request-Headers"),
          ("Access-Control-Allow-Methods", "GET, HEAD, POST"),
          ("Access-Control-Allow-Headers",
            "Origin, Accept, Content-Type, X-Requested-With"),
          ("Access-Control-Max-Age", "3600")], some 204, false⟩ :=
  ⟨((cors_zero_options_defaults.2 "GET" "https://anything.example" ""
      (by decide)).2 (by decide)),
   ((cors_zero_options_defaults.2 "OPTIONS" "https://anything.example" "POST"
      (by decide)).1 (by decide))⟩

/-- C5: if credential-sharing is enabled and the only allowed-origin
entry surviving validation is the wildcard (no explicit hostnames
remain), the CORS middleware forcibly disables credentials: it logs a
warning, never emits `Access-Control-Allow-Credentials` on any
response, and still reflects `*` in `Access-Control-Allow-Origin` for
any (nonempty) origin. -/
theorem cors_wildcard_credentials_downgrade (cfg : CorsConfig)
    (hcred : cfg.allowCredentials = true)
    (hpart : partitionOrigins cfg = ([], true)) :
    (buildCors cfg).allowCredentials = false ∧
    (buildCors cfg).wildcard = true ∧
    (buildCors cfg).warnLogs
      = ["middleware: CORS AllowCredentials with only wildcard origin is invalid, disabling credentials"] ∧
    ∀ m origin acrm : String, ¬(origin = "") →
      hGet (corsHandle (buildCors cfg) ⟨m, origin, acrm⟩).headers
          "Access-Control-Allow-Credentials" = "" ∧
      hGet (corsHandle (buildCors cfg) ⟨m, origin, acrm⟩).headers
          "Access-Control-Allow-Origin" = "*" := by
  have hstate : (buildCors cfg).allowCredentials = false ∧
      (buildCors cfg).wildcard = true ∧
      (buildCors cfg).warnLogs
        = ["middleware: CORS AllowCredentials with only wildcard origin is invalid, disabling credentials"] := by
    unfold buildCors
    rw [hpart]
    dsimp only
    rw [if_pos hcred, if_pos (by exact ⟨rfl, rfl⟩)]
    exact ⟨rfl, rfl, rfl⟩
  refine ⟨hstate.1, hstate.2.1, hstate.2.2, ?_⟩
  intro m origin acrm ho
  have h := corsHandle_wildcard (buildCors cfg) hstate.2.1 hstate.1 m origin acrm ho
  exact ⟨h.2.1, h.1⟩

/-- Witness for C5: credentials requested together with only the
wildcard origin; the built state has credentials off and the warning
logged, and a concrete request still gets `*` with no credentials
header. -/
theorem cors_wildcard_credentials_downgrade_witness :
    (buildCors { allowedOrigins := ["*"], allowCredentials := true }).allowCredentials
      = false ∧
    (buildCors { allowedOrigins := ["*"], allowCredentials := true }).wildcard = true ∧
    (buildCors { allowedOrigins := ["*"], allowCredentials := true }).warnLogs
      = ["middleware: CORS AllowCredentials with only wildcard origin is invalid, disabling credentials"] ∧
    hGet (corsHandle (buildCors { allowedOrigins := ["*"], allowCredentials := true })
        ⟨"GET", "https://a.example", ""⟩).headers
        "Access-Control-Allow-Credentials" = "" ∧
    hGet (corsHandle (buildCors { allowedOrigins := ["*"], allowCredentials := true })
        ⟨"GET", "https://a.example", ""⟩).headers
        "Access-Control-Allow-Origin" = "*" := by
  have h := cors_wildcard_credentials_downgrade
    { allowedOrigins := ["*"], allowCredentials := true } rfl (by decide)
  have h2 := h.2.2.2 "GET" "https://a.example" "" (by decide)
  exact ⟨h.1, h.2.1, h.2.2.1, h2.1, h2.2⟩

theorem takeWhile_all {p : Char → Bool} (l : List Char) (h : ∀ c ∈ l, p c = true) :
    l.takeWhile p = l := by
  induction l with
  | nil => rfl
  | cons c cs ih =>
    rw [List.takeWhile_cons, if_pos (h c (by simp))]
    rw [ih (fun x hx => h x (List.mem_cons_of_mem _ hx))]

theorem dropSchemeL_append (s rest : List Char) (hs : ∀ c ∈ s, ¬(c = ':')) :
    dropSchemeL (s ++ ':' :: '/' :: '/' :: rest) = some rest := by
  induction s with
  | nil =>
    rw [List.nil_append]
    unfold dropSchemeL
    rw [if_pos rfl]
    rfl
  | cons c cs ih =>
    rw [List.cons_append]
    unfold dropSchemeL
    rw [if_neg (hs c (by simp))]
    exact ih (fun x hx => hs x (List.mem_cons_of_mem _ hx))

theorem extractHostL_spec (scheme host tail : List Char)
    (hs : ∀ c ∈ scheme, ¬(c = ':'))
    (hh : ∀ c ∈ host, ¬(c = ':') ∧ ¬(c = '/') ∧ ¬(c = '?') ∧ ¬(c = '#'))
    (ht : tail = [] ∨ ∃ port, tail = ':' :: port ∧
      ∀ c ∈ port, ¬(c = '/') ∧ ¬(c = '?') ∧ ¬(c = '#')) :
    extractHostL (scheme ++ ':' :: '/' :: '/' :: (host ++ tail)) = host := by
  unfold extractHostL
  rw [dropSchemeL_append _ _ hs]
  dsimp only
  have hhost1 : ∀ c ∈ host, (fun c => ¬(c = '/' ∨ c = '?' ∨ c = '#') : Char → Bool) c
      = true := by
    intro c hc
    obtain ⟨_, h2, h3, h4⟩ := hh c hc
    simp [h2, h3, h4]
  have hhost2 : ∀ c ∈ host, (fun c => ¬(c = ':') : Char → Bool) c = true := by
    intro c hc
    simp [(hh c hc).1]
  rcases ht with rfl | ⟨port, rfl, hp⟩
  · rw [List.append_nil, takeWhile_all host hhost1, takeWhile_all host hhost2]
  · rw [List.takeWhile_append]
    rw [takeWhile_all host hhost1, if_pos rfl]
    have hport : List.takeWhile (fun c => ¬(c = '/' ∨ c = '?' ∨ c = '#') : Char → Bool)
        (':' :: port) = ':' :: port := by
      apply takeWhile_all
      intro c hc
      rcases List.mem_cons.mp hc with rfl | hc2
      · simp
      · obtain ⟨h2, h3, h4⟩ := hp c hc2
        simp [h2, h3, h4]
    rw [hport, List.takeWhile_append, takeWhile_all host hhost2, if_pos rfl]
    have hcolon : List.takeWhile (fun c => ¬(c = ':') : Char → Bool) (':' :: port)
        = [] := by
      rw [List.takeWhile_cons, if_neg (by simp)]
    rw [hcolon, List.append_nil]

/-- The hostname of a well-formed `scheme://host[:port]` origin is the
host component, ignoring the scheme and port.  The hypotheses make the
model faithful to `url.Parse`: an alphabetic scheme, a host without
separators, a numeric port. -/
theorem extractHostname_mkOrigin (scheme host port : String)
    (hsch : ¬(scheme = "") ∧ ∀ c ∈ scheme.data, c.isAlpha = true)
    (hh : ∀ c ∈ host.data, ¬(c = ':') ∧ ¬(c = '/') ∧ ¬(c = '?') ∧ ¬(c = '#'))
    (hp : ∀ c ∈ port.data, c.isDigit = true) :
    extractHostname (scheme ++ "://" ++ host ++ (if port = "" then "" else ":" ++ port))
      = host := by
  unfold extractHostname
  have hscolon : ∀ c ∈ scheme.data, ¬(c = ':') := by
    intro c hc he
    have := hsch.2 c hc
    rw [he] at this
    simp at this
  have hdata : (scheme ++ "://" ++ host ++ (if port = "" then "" else ":" ++ port)).data
      = scheme.data ++ ':' :: '/' :: '/' ::
          (host.data ++ (if port = "" then [] else ':' :: port.data)) := by
    by_cases hp0 : port = ""
    · simp [hp0, String.data_append]
    · simp [hp0, String.data_append]
  rw [hdata, extractHostL_spec scheme.data host.data _ hscolon hh ?ht]
  case ht =>
    by_cases hp0 : port = ""
    · left
      rw [if_pos hp0]
    · right
      refine ⟨port.data, by rw [if_neg hp0], ?_⟩
      intro c hc
      have := hp c hc
      refine ⟨?_, ?_, ?_⟩ <;> (intro he; rw [he] at this; simp at this)

/-- C4: CORS matching is by hostname only and case-insensitive.  With a
single configured bare hostname: an Origin header carrying that
hostname (in any letter case) with any alphabetic scheme, any numeric
port, matches, and the full original Origin string is echoed in
`Access-Control-Allow-Origin`; an Origin whose hostname is not
configured never receives `Access-Control-Allow-Origin` and falls
through to the wrapped handler with no error status. -/
theorem cors_hostname_matching (hostCfg : String)
    (hne : ¬(hostCfg = "*")) (hne2 : ¬(hostCfg = "")) :
    (∀ scheme host port m : String,
      (¬(scheme = "") ∧ ∀ c ∈ scheme.data, c.isAlpha = true) →
      (∀ c ∈ host.data, ¬(c = ':') ∧ ¬(c = '/') ∧ ¬(c = '?') ∧ ¬(c = '#')) →
      (∀ c ∈ port.data, c.isDigit = true) →
      lowerS host = lowerS hostCfg →
      (corsHandle (buildCors { allowedOrigins := [hostCfg] })
          ⟨m, scheme ++ "://" ++ host ++ (if port = "" then "" else ":" ++ port), ""⟩)
        = ⟨hSet (hAdd [] "Vary" "Origin") "Access-Control-Allow-Origin"
              (scheme ++ "://" ++ host ++ (if port = "" then "" else ":" ++ port)),
           none, true⟩ ∧
      hGet (corsHandle (buildCors { allowedOrigins := [hostCfg] })
          ⟨m, scheme ++ "://" ++ host ++ (if port = "" then "" else ":" ++ port), ""⟩).headers
          "Access-Control-Allow-Origin"
        = scheme ++ "://" ++ host ++ (if port = "" then "" else ":" ++ port)) ∧
    (∀ origin m acrm : String, ¬(origin = "") →
      ¬(lowerS (extractHostname origin) = lowerS hostCfg) →
      corsHandle (buildCors { allowedOrigins := [hostCfg] }) ⟨m, origin, acrm⟩
        = ⟨[("Vary", "Origin")], none, true⟩) := by
  have hpart : partitionOrigins { allowedOrigins := [hostCfg] }
      = ([lowerS hostCfg], false) := by
    unfold partitionOrigins
    dsimp only [List.foldl]
    rw [if_neg (show ¬¬(validateOrigin hostCfg [] = true) from not_not_intro rfl),
      if_neg hne2, if_neg hne]
    rw [List.nil_append]
  have hhn : (buildCors { allowedOrigins := [hostCfg] }).allowedHostnames
      = [lowerS hostCfg] := by
    unfold buildCors
    rw [hpart]
  have hwc : (buildCors { allowedOrigins := [hostCfg] }).wildcard = false := by
    unfold buildCors
    rw [hpart]
    rfl
  have hcr : (buildCors { allowedOrigins := [hostCfg] }).allowCredentials = false := by
    unfold buildCors
    rw [hpart]
    rfl
  have hex : (buildCors { allowedOrigins := [hostCfg] }).exposedHeaders = "" := by
    unfold buildCors
    rw [hpart]
    rfl
  constructor
  · intro scheme host port m hsch hh hp hcase
    have hdata : (scheme ++ "://" ++ host ++ (if port = "" then "" else ":" ++ port)).data
        = scheme.data ++ ':' :: '/' :: '/' ::
            (host.data ++ (if port = "" then [] else ':' :: port.data)) := by
      by_cases hp0 : port = ""
      · simp [hp0, String.data_append]
      · simp [hp0, String.data_append]
    have ho : ¬(scheme ++ "://" ++ host ++ (if port = "" then "" else ":" ++ port) = "") := by
      intro he
      rw [he] at hdata
      simp at hdata
    have hext := extractHostname_mkOrigin scheme host port hsch hh hp
    have hmatched : ((buildCors { allowedOrigins := [hostCfg] }).allowedHostnames.contains
        (lowerS (extractHostname
          (scheme ++ "://" ++ host ++ (if port = "" then "" else ":" ++ port))))) = true := by
      rw [hhn, hext, hcase]
      simp
    have hres : corsHandle (buildCors { allowedOrigins := [hostCfg] })
        ⟨m, scheme ++ "://" ++ host ++ (if port = "" then "" else ":" ++ port), ""⟩
        = ⟨hSet (hAdd [] "Vary" "Origin") "Access-Control-Allow-Origin"
              (scheme ++ "://" ++ host ++ (if port = "" then "" else ":" ++ port)),
           none, true⟩ := by
      unfold corsHandle
      rw [if_neg ho]
      dsimp only
      rw [if_neg (fun hcontra => hcontra.1 hmatched)]
      rw [if_neg (show ¬(m = "OPTIONS" ∧ ¬(("" : String) = "")) from
        fun hcontra => hcontra.2 rfl)]
      rw [if_neg (show ¬¬((buildCors { allowedOrigins := [hostCfg] }).exposedHeaders
          = "") from not_not_intro hex)]
      rw [if_neg (show ¬((buildCors { allowedOrigins := [hostCfg] }).allowCredentials
          = true) from by simp [hcr])]
      rw [if_neg (show ¬((buildCors { allowedOrigins := [hostCfg] }).wildcard
          = true) from by simp [hwc])]
    refine ⟨hres, ?_⟩
    rw [hres]
    exact hGet_hSet_self _ _ _
  · intro origin m acrm ho hneq
    have hmatched : ((buildCors { allowedOrigins := [hostCfg] }).allowedHostnames.contains
        (lowerS (extractHostname origin))) = false := by
      rw [hhn]
      simp [hneq]
    unfold corsHandle
    rw [if_neg ho]
    dsimp only
    rw [if_pos (show
      ¬((buildCors { allowedOrigins := [hostCfg] }).allowedHostnames.contains
          (lowerS (extractHostname origin)) = true) ∧
        ¬((buildCors { allowedOrigins := [hostCfg] }).wildcard = true) from
      ⟨by rw [hmatched]; simp, by rw [hwc]; simp⟩)]
    rfl

/-- Witness for C4: configured hostname `example.com`; an origin
`https://EXAMPLE.com:8443` is matched by hostname only and echoed in
full; `https://evil.com` gets no CORS header and falls through. -/
theorem cors_hostname_matching_witness :
    hGet (corsHandle (buildCors { allowedOrigins := ["example.com"] })
        ⟨"GET", "https://EXAMPLE.com:8443", ""⟩).headers
        "Access-Control-Allow-Origin" = "https://EXAMPLE.com:8443" ∧
    corsHandle (buildCors { allowedOrigins := ["example.com"] })
        ⟨"GET", "https://evil.com", ""⟩
      = ⟨[("Vary", "Origin")], none, true⟩ := by
  have h := cors_hostname_matching "example.com" (by decide) (by decide)
  constructor
  · have h2 := (h.1 "https" "EXAMPLE.com" "8443" "GET" (by decide) (by decide)
      (by decide) (by decide)).2
    exact h2.trans (by decide)
  · exact h.2 "https://evil.com" "GET" "" (by decide) (by decide)

/-- The skip conditions as the specification lists them, evaluated at
the compress-or-skip decision point: already-compressed (possibly
sniffed) content type, buffered size below the threshold, a
`Content-Encoding` already set by the handler, or status 204/304/206 or
1xx. -/
def specSkipCondition (detect : List Nat → String) (w : GzipRW) : Prop :=
  (compressedContentTypes.contains
      ((cutBeforeSemicolon (if hGet w.headers "Content-Type" = ""
          then detect w.buf else hGet w.headers "Content-Type")).trim)) = true
  ∨ w.buf.length < minCompressSize
  ∨ hGet w.headers "Content-Encoding" ≠ ""
  ∨ w.statusCode = 204 ∨ w.statusCode = 304 ∨ w.statusCode = 206
  ∨ (100 ≤ w.statusCode ∧ w.statusCode ≤ 199)

theorem shouldSkip_of_spec (detect : List Nat → String) (w : GzipRW)
    (h : specSkipCondition detect w) : shouldSkipGzip detect w = true := by
  unfold shouldSkipGzip
  unfold specSkipCondition at h
  dsimp only
  split_ifs <;> try rfl
  all_goals exfalso
  all_goals rcases h with hc | hc | hc | hc | hc | hc | hc <;> simp_all <;> omega

/-- C7: at the compress-or-skip decision, whenever any of the listed
skip conditions holds, the writer decides to skip: the header map is
left untouched (in particular `Content-Encoding` is never set by the
middleware) and the buffered body is forwarded verbatim to the
underlying writer. -/
theorem compress_skip_conditions (detect : List Nat → String) (s : GzipRW)
    (hd : s.decided = false) (h : specSkipCondition detect s) :
    (gzwCommit detect s).skipGzip = true ∧
    (gzwCommit detect s).headers = s.headers ∧
    (gzwCommit detect s).sentHeaders = s.headers ∧
    (gzwCommit detect s).rawOut = s.rawOut ++ s.buf ∧
    (gzwCommit detect s).gzIn = s.gzIn ∧
    hGet (gzwCommit detect s).sentHeaders "Content-Encoding"
      = hGet s.headers "Content-Encoding" := by
  have hsk : shouldSkipGzip detect { s with decided := true } = true :=
    shouldSkip_of_spec detect _ h
  unfold gzwCommit
  rw [if_neg (by simp [hd])]
  dsimp only
  rw [if_pos hsk]
  simp only [hsk, if_true]
  split_ifs with h1 h2 <;> simp_all [List.isEmpty_iff]

/-- Witness for C7: a small (below-threshold) plain-text buffer is
forwarded verbatim with no `Content-Encoding` added. -/
theorem compress_skip_conditions_witness :
    (gzwCommit (fun _ => "text/plain")
        { headers := [], statusCode := 200, buf := [104, 105] }).skipGzip = true ∧
    (gzwCommit (fun _ => "text/plain")
        { headers := [], statusCode := 200, buf := [104, 105] }).headers = [] ∧
    (gzwCommit (fun _ => "text/plain")
        { headers := [], statusCode := 200, buf := [104, 105] }).sentHeaders = [] ∧
    (gzwCommit (fun _ => "text/plain")
        { headers := [], statusCode := 200, buf := [104, 105] }).rawOut
      = [] ++ [104, 105] ∧
    (gzwCommit (fun _ => "text/plain")
        { headers := [], statusCode := 200, buf := [104, 105] }).gzIn = [] ∧
    hGet (gzwCommit (fun _ => "text/plain")
        { headers := [], statusCode := 200, buf := [104, 105] }).sentHeaders
        "Content-Encoding"
      = hGet ([] : Headers) "Content-Encoding" :=
  compress_skip_conditions (fun _ => "text/plain")
    { headers := [], statusCode := 200, buf := [104, 105] }
    rfl (Or.inr (Or.inl (by decide)))

/-! ## Recovery middleware (`recovery.go`)

`Recovery` wraps the handler's writer in a `recoveryWriter` that tracks
whether any response byte or committing status line has reached the
client, recovers a panic exactly once in its deferred function, and
either re-raises `http.ErrAbortHandler`, logs and writes a 500, or — if
the response already started — only logs. -/

/-- The server-side `http.ResponseWriter` under the wrapper: the first
non-informational `WriteHeader` commits the status (1xx codes other
than 101 are informational responses and do not commit); a body write
implies an implicit 200. -/
structure BaseRW where
  status : Option Nat := none
  body : String := ""
deriving DecidableEq

/-- Status-line semantics of the underlying `net/http` writer. -/
def baseWriteHeader (w : BaseRW) (code : Nat) : BaseRW :=
  if 100 ≤ code ∧ code ≤ 199 ∧ ¬(code = 101) then w
  else if w.status = none then { w with status := some code } else w

/-- Body-write semantics of the underlying writer. -/
def baseWrite (w : BaseRW) (b : String) : BaseRW :=
  let w := if w.status = none then { w with status := some 200 } else w
  { w with body := w.body ++ b }

/-- `recoveryWriter`: the wrapper plus its `written` flag. -/
structure RecRW where
  base : BaseRW := {}
  written : Bool := false
deriving DecidableEq

/-- `recoveryWriter.WriteHeader`: mark written for 101 or any `≥ 200`
code, then delegate. -/
def recWriteHeader (w : RecRW) (code : Nat) : RecRW :=
  { base := baseWriteHeader w.base code,
    written := if code = 101 ∨ 200 ≤ code then true else w.written }

/-- `recoveryWriter.Write`: mark written, then delegate. -/
def recWrite (w : RecRW) (b : String) : RecRW :=
  { base := baseWrite w.base b, written := true }

/-- One interaction of the wrapped handler with the recovery writer. -/
inductive RecAction where
  | write (b : String)
  | writeHeader (code : Nat)
deriving DecidableEq

/-- Run the handler's writer interactions. -/
def runRecActions (w : RecRW) (acts : List RecAction) : RecRW :=
  acts.foldl (fun w a => match a with
    | .write b => recWrite w b
    | .writeHeader code => recWriteHeader w code) w

/-- What the wrapped handler does after its writes: return normally or
panic with a value — `http.ErrAbortHandler` or anything else. -/
inductive PanicValue where
  | abortHandler
  | other (msg : String)
deriving DecidableEq

/-- Handler termination. -/
inductive HandlerOutcome where
  | normal
  | panics (v : PanicValue)
deriving DecidableEq

/-- A structured record of one `slog.Error` call in `Recovery`. -/
structure RecLogEntry where
  msg : String
  panicMsg : String
  hasStack : Bool
  method : String
  path : String
  requestID : Option String
  responseAlreadyWritten : Bool
deriving DecidableEq

/-- `http.Error(w, msg, code)` on the recovery writer (header tweaks of
the stdlib helper omitted; it writes the status and the message plus a
newline). -/
def httpError (w : RecRW) (msg : String) (code : Nat) : RecRW :=
  recWrite (recWriteHeader w code) (msg ++ "\n")

/-- Result of one request through `Recovery`: final writer state, the
diagnostics logged, and a re-raised panic value if any. -/
structure RecoveryResult where
  writer : RecRW
  logs : List RecLogEntry
  repanic : Option PanicValue
deriving DecidableEq

/-- The `Recovery` middleware on one request: run the handler's writer
interactions, then apply the deferred recover block to its outcome. -/
def recovery (method path reqID : String) (acts : List RecAction)
    (outcome : HandlerOutcome) : RecoveryResult :=
  let w := runRecActions {} acts
  match outcome with
  | .normal => ⟨w, [], none⟩
  | .panics .abortHandler => ⟨w, [], some .abortHandler⟩
  | .panics (.other msg) =>
    let rid : Option String := if reqID = "" then none else some reqID
    if w.written then
      ⟨w, [⟨"panic recovered after response was already written", msg, true,
          method, path, rid, true⟩], none⟩
    else
      ⟨httpError w "Internal Server Error" 500,
       [⟨"panic recovered", msg, true, method, path, rid, false⟩], none⟩

/-- Validity of a handler interaction: `net/http` rejects status codes
outside the standard range, so a well-behaved handler only sends codes
in `[100, 599]`. -/
def validRecAction : RecAction → Bool
  | .writeHeader code => 100 ≤ code && code ≤ 599
  | .write _ => true

theorem runRecActions_written_mono (acts : List RecAction) :
    ∀ w : RecRW, w.written = true → (runRecActions w acts).written = true := by
  induction acts with
  | nil => intro w hw; exact hw
  | cons a rest ih =>
    intro w hw
    cases a with
    | write b => exact ih _ rfl
    | writeHeader code =>
      refine ih _ ?_
      unfold recWriteHeader
      dsimp only
      split_ifs
      · rfl
      · exact hw

theorem runRecActions_status_of_not_written (acts : List RecAction) :
    acts.all validRecAction = true →
    ∀ w : RecRW, w.base.status = none →
    (runRecActions w acts).written = false → (runRecActions w acts).base.status = none := by
  induction acts with
  | nil => intro _ w h2 _; exact h2
  | cons a rest ih =>
    intro hcodes w hst hrun
    rw [List.all_cons, Bool.and_eq_true] at hcodes
    cases a with
    | write b =>
      exfalso
      have hmono := runRecActions_written_mono rest (recWrite w b) rfl
      rw [show runRecActions w (RecAction.write b :: rest)
          = runRecActions (recWrite w b) rest from rfl] at hrun
      rw [hrun] at hmono
      simp at hmono
    | writeHeader code =>
      have hc : 100 ≤ code ∧ code ≤ 599 := by
        have := hcodes.1
        simp [validRecAction] at this
        exact this
      by_cases hmark : code = 101 ∨ 200 ≤ code
      · exfalso
        have hw1 : (recWriteHeader w code).written = true := by
          unfold recWriteHeader
          dsimp only
          rw [if_pos hmark]
        have hmono := runRecActions_written_mono rest (recWriteHeader w code) hw1
        rw [show runRecActions w (RecAction.writeHeader code :: rest)
            = runRecActions (recWriteHeader w code) rest from rfl] at hrun
        rw [hrun] at hmono
        simp at hmono
      · have hstat : (recWriteHeader w code).base.status = none := by
          unfold recWriteHeader baseWriteHeader
          dsimp only
          push_neg at hmark
          rw [if_pos (show 100 ≤ code ∧ code ≤ 199 ∧ ¬(code = 101) from
            ⟨hc.1, by omega, by omega⟩)]
          exact hst
        exact ih hcodes.2 _ hstat hrun

theorem httpError_spec (w : RecRW) (msg : String) (hst : w.base.status = none) :
    (httpError w msg 500).base.status = some 500 ∧
    (httpError w msg 500).base.body = w.base.body ++ (msg ++ "\n") ∧
    (httpError w msg 500).written = true := by
  unfold httpError recWrite baseWrite recWriteHeader baseWriteHeader
  dsimp only
  rw [if_neg (by decide : ¬(100 ≤ 500 ∧ 500 ≤ 199 ∧ ¬(500 = 101))), if_pos hst]
  simp

/-- C9: a panic in the wrapped handler is recovered exactly once by the
`Recovery` middleware and logged with the panic value, a stack trace, and
the request identifier when present; it is converted to a 500 Internal
Server Error response unless the response was already partially written
(then only a diagnostic is logged and the writer — hence the committed
status — is left unchanged) or the panic value is `http.ErrAbortHandler`,
which is re-raised rather than swallowed (and not logged). A normal
return recovers and logs nothing. -/
theorem recovery_panic_semantics
    (method path reqID : String) (acts : List RecAction) (v : PanicValue)
    (hcodes : acts.all validRecAction = true) :
    (v = .abortHandler →
      recovery method path reqID acts (.panics v)
        = ⟨runRecActions {} acts, [], some .abortHandler⟩) ∧
    (recovery method path reqID acts .normal = ⟨runRecActions {} acts, [], none⟩) ∧
    (∀ msg, v = .other msg →
      (recovery method path reqID acts (.panics v)).repanic = none ∧
      ∃ e, (recovery method path reqID acts (.panics v)).logs = [e] ∧
        e.panicMsg = msg ∧ e.hasStack = true ∧ e.method = method ∧ e.path = path ∧
        e.requestID = (if reqID = "" then none else some reqID) ∧
        ((runRecActions {} acts).written = true →
          e.msg = "panic recovered after response was already written" ∧
          (recovery method path reqID acts (.panics v)).writer = runRecActions {} acts) ∧
        ((runRecActions {} acts).written = false →
          e.msg = "panic recovered" ∧
          (recovery method path reqID acts (.panics v)).writer.base.status = some 500 ∧
          (recovery method path reqID acts (.panics v)).writer.base.body
            = (runRecActions {} acts).base.body ++ "Internal Server Error\n" ∧
          (recovery method path reqID acts (.panics v)).writer.written = true)) := by
  refine ⟨fun hv => by subst hv; rfl, rfl, ?_⟩
  intro msg hv
  subst hv
  simp only [recovery]
  by_cases hw : (runRecActions {} acts).written = true
  · rw [if_pos hw]
    exact ⟨rfl, _, rfl, rfl, rfl, rfl, rfl, rfl,
      fun _ => ⟨rfl, rfl⟩, fun hf => absurd (hw.symm.trans hf) (by simp)⟩
  · rw [if_neg hw]
    have hw' : (runRecActions {} acts).written = false := by
      cases h : (runRecActions {} acts).written
      · rfl
      · exact absurd h hw
    have hstat : (runRecActions {} acts).base.status = none :=
      runRecActions_status_of_not_written acts hcodes {} rfl hw'
    have herr := httpError_spec (runRecActions {} acts) "Internal Server Error" hstat
    exact ⟨rfl, _, rfl, rfl, rfl, rfl, rfl, rfl,
      fun ht => absurd (hw'.symm.trans ht) (by simp),
      fun _ => ⟨rfl, herr.1, herr.2.1, herr.2.2⟩⟩

/-- C9 witness: concrete runs covering all three branches. A handler
that wrote "hi" with status 200 then panicked with "boom": one "after
response was already written" log, writer untouched. A handler that
panicked before writing: one "panic recovered" log, body gets the 500
error text, status committed as 500, request id absent when empty.
An `ErrAbortHandler` panic: re-raised, nothing logged. -/
theorem recovery_panic_semantics_witness :
    (recovery "GET" "/x" "req-1" [RecAction.writeHeader 200, RecAction.write "hi"]
        (.panics (.other "boom")))
      = ⟨⟨⟨some 200, "hi"⟩, true⟩,
         [⟨"panic recovered after response was already written", "boom", true,
           "GET", "/x", some "req-1", true⟩], none⟩ ∧
    (recovery "POST" "/y" "" [] (.panics (.other "boom")))
      = ⟨⟨⟨some 500, "Internal Server Error\n"⟩, true⟩,
         [⟨"panic recovered", "boom", true, "POST", "/y", none, false⟩], none⟩ ∧
    (recovery "GET" "/z" "" [RecAction.write "a"] (.panics .abortHandler))
      = ⟨⟨⟨some 200, "a"⟩, true⟩, [], some .abortHandler⟩ := by
  have h1 := recovery_panic_semantics "GET" "/x" "req-1"
      [RecAction.writeHeader 200, RecAction.write "hi"] (.other "boom") (by decide)
  have h2 := recovery_panic_semantics "POST" "/y" ""
      [] (.other "boom") (by decide)
  have h3 := recovery_panic_semantics "GET" "/z" ""
      [RecAction.write "a"] .abortHandler (by decide)
  obtain ⟨-, -, hrec1⟩ := h1
  obtain ⟨-, -, hrec2⟩ := h2
  obtain ⟨habort, -, -⟩ := h3
  obtain ⟨hre1, e1, hlog1, -⟩ := hrec1 "boom" rfl
  obtain ⟨hre2, e2, hlog2, -⟩ := hrec2 "boom" rfl
  refine ⟨?_, ?_, (habort rfl).trans (by decide)⟩
  · decide
  · decide

end Middleware
